import Mathlib

/-!
Verification development for the rust-icns library (ICNS icon file codec).

The definitions below are a shallow embedding of the Rust sources:
  * src/image.rs    — Image, PixelFormat, pixel-format conversions
  * src/icontype.rs — OSType, IconType registry, Encoding
  * src/element.rs  — IconElement, RLE24 codec, element framing
  * src/family.rs   — IconFamily, outer file codec, icon selection

Bytes are modelled as Nat; u8/u32 casts keep their `% 256` / `% 2^32`
truncations where the Rust code performs them.  Fallible operations
(io::Result) are modelled with Option, `none` standing for any error.
Stateful loops are modelled by explicit recursion; loops whose Rust
form is `while` carry an explicit fuel argument that is always called
with sufficient fuel, so that the definitions stay executable by the
kernel.
-/

namespace Icns

/-- PixelFormat from src/image.rs. -/
inductive PixelFormat where
  | RGBA
  | RGB
  | GrayAlpha
  | Gray
  | Alpha
deriving DecidableEq

/-- PixelFormat::bits_per_pixel from src/image.rs. -/
def PixelFormat.bits_per_pixel : PixelFormat → Nat
  | .RGBA => 32
  | .RGB => 24
  | .GrayAlpha => 16
  | .Gray => 8
  | .Alpha => 8

/-- rgba_to_rgb from src/image.rs.  The Rust loop walks the buffer one
4-byte pixel at a time (it asserts the length is a multiple of 4);
this is that loop written as structural recursion on the byte list. -/
def rgba_to_rgb : List Nat → List Nat
  | r :: g :: b :: _ :: rest => r :: g :: b :: rgba_to_rgb rest
  | _ => []

/-- rgb_to_rgba from src/image.rs (alpha pushed as u8::MAX = 255). -/
def rgb_to_rgba : List Nat → List Nat
  | r :: g :: b :: rest => r :: g :: b :: 255 :: rgb_to_rgba rest
  | _ => []

/-- rgba_to_gray from src/image.rs: integer mean of R,G,B, cast `as u8`. -/
def rgba_to_gray : List Nat → List Nat
  | r :: g :: b :: _ :: rest => ((r + g + b) / 3) % 256 :: rgba_to_gray rest
  | _ => []

/-- rgb_to_gray from src/image.rs. -/
def rgb_to_gray : List Nat → List Nat
  | r :: g :: b :: rest => ((r + g + b) / 3) % 256 :: rgb_to_gray rest
  | _ => []

/-- rgba_to_grayalpha from src/image.rs. -/
def rgba_to_grayalpha : List Nat → List Nat
  | r :: g :: b :: a :: rest => ((r + g + b) / 3) % 256 :: a :: rgba_to_grayalpha rest
  | _ => []

/-- rgb_to_grayalpha from src/image.rs. -/
def rgb_to_grayalpha : List Nat → List Nat
  | r :: g :: b :: rest => ((r + g + b) / 3) % 256 :: 255 :: rgb_to_grayalpha rest
  | _ => []

/-- rgba_to_alpha from src/image.rs. -/
def rgba_to_alpha : List Nat → List Nat
  | _ :: _ :: _ :: a :: rest => a :: rgba_to_alpha rest
  | _ => []

/-- rgb_to_alpha from src/image.rs: vec![u8::MAX; num_pixels]. -/
def rgb_to_alpha (rgb : List Nat) : List Nat :=
  List.replicate (rgb.length / 3) 255

/-- grayalpha_to_rgba from src/image.rs. -/
def grayalpha_to_rgba : List Nat → List Nat
  | g :: a :: rest => g :: g :: g :: a :: grayalpha_to_rgba rest
  | _ => []

/-- grayalpha_to_rgb from src/image.rs. -/
def grayalpha_to_rgb : List Nat → List Nat
  | g :: _ :: rest => g :: g :: g :: grayalpha_to_rgb rest
  | _ => []

/-- grayalpha_to_gray from src/image.rs. -/
def grayalpha_to_gray : List Nat → List Nat
  | g :: _ :: rest => g :: grayalpha_to_gray rest
  | _ => []

/-- grayalpha_to_alpha from src/image.rs. -/
def grayalpha_to_alpha : List Nat → List Nat
  | _ :: a :: rest => a :: grayalpha_to_alpha rest
  | _ => []

/-- gray_to_rgba from src/image.rs. -/
def gray_to_rgba : List Nat → List Nat
  | v :: rest => v :: v :: v :: 255 :: gray_to_rgba rest
  | _ => []

/-- gray_to_rgb from src/image.rs. -/
def gray_to_rgb : List Nat → List Nat
  | v :: rest => v :: v :: v :: gray_to_rgb rest
  | _ => []

/-- gray_to_grayalpha from src/image.rs. -/
def gray_to_grayalpha : List Nat → List Nat
  | v :: rest => v :: 255 :: gray_to_grayalpha rest
  | _ => []

/-- gray_to_alpha from src/image.rs: vec![u8::MAX; len]. -/
def gray_to_alpha (gray : List Nat) : List Nat :=
  List.replicate gray.length 255

/-- alpha_to_rgba from src/image.rs. -/
def alpha_to_rgba : List Nat → List Nat
  | v :: rest => 0 :: 0 :: 0 :: v :: alpha_to_rgba rest
  | _ => []

/-- alpha_to_rgb from src/image.rs: vec![0u8; len * 3]. -/
def alpha_to_rgb (alpha : List Nat) : List Nat :=
  List.replicate (alpha.length * 3) 0

/-- alpha_to_grayalpha from src/image.rs. -/
def alpha_to_grayalpha : List Nat → List Nat
  | v :: rest => 0 :: v :: alpha_to_grayalpha rest
  | _ => []

/-- alpha_to_gray from src/image.rs: vec![0u8; len]. -/
def alpha_to_gray (alpha : List Nat) : List Nat :=
  List.replicate alpha.length 0

/-- Image from src/image.rs: format, width, height, and the raw pixel
byte buffer (row-major). -/
structure Image where
  format : PixelFormat
  width : Nat
  height : Nat
  data : List Nat
deriving DecidableEq

/-- Image::new from src/image.rs: zero-filled buffer of
ceil(bits_per_pixel * width * height / 8) bytes. -/
def Image.new (format : PixelFormat) (width height : Nat) : Image :=
  { format := format, width := width, height := height
    data := List.replicate ((format.bits_per_pixel * width * height + 7) / 8) 0 }

/-- Image::convert_to from src/image.rs: dispatch over the 25
(source format, target format) pairs; the diagonal clones the data. -/
def Image.convert_to (img : Image) (format : PixelFormat) : Image :=
  let newData :=
    match img.format, format with
    | .RGBA, .RGBA => img.data
    | .RGBA, .RGB => rgba_to_rgb img.data
    | .RGBA, .GrayAlpha => rgba_to_grayalpha img.data
    | .RGBA, .Gray => rgba_to_gray img.data
    | .RGBA, .Alpha => rgba_to_alpha img.data
    | .RGB, .RGBA => rgb_to_rgba img.data
    | .RGB, .RGB => img.data
    | .RGB, .GrayAlpha => rgb_to_grayalpha img.data
    | .RGB, .Gray => rgb_to_gray img.data
    | .RGB, .Alpha => rgb_to_alpha img.data
    | .GrayAlpha, .RGBA => grayalpha_to_rgba img.data
    | .GrayAlpha, .RGB => grayalpha_to_rgb img.data
    | .GrayAlpha, .GrayAlpha => img.data
    | .GrayAlpha, .Gray => grayalpha_to_gray img.data
    | .GrayAlpha, .Alpha => grayalpha_to_alpha img.data
    | .Gray, .RGBA => gray_to_rgba img.data
    | .Gray, .RGB => gray_to_rgb img.data
    | .Gray, .GrayAlpha => gray_to_grayalpha img.data
    | .Gray, .Gray => img.data
    | .Gray, .Alpha => gray_to_alpha img.data
    | .Alpha, .RGBA => alpha_to_rgba img.data
    | .Alpha, .RGB => alpha_to_rgb img.data
    | .Alpha, .GrayAlpha => alpha_to_grayalpha img.data
    | .Alpha, .Gray => alpha_to_gray img.data
    | .Alpha, .Alpha => img.data
  { format := format, width := img.width, height := img.height, data := newData }

/-- OSType from src/icontype.rs: a four-byte identifier, byte-wise equality. -/
structure OSType where
  b0 : Nat
  b1 : Nat
  b2 : Nat
  b3 : Nat
deriving DecidableEq

/-- IconType from src/icontype.rs: the closed set of icon variants known
to this version of the registry (19 variants; no monochrome entries). -/
inductive IconType where
  | RGB24_16x16
  | Mask8_16x16
  | RGB24_32x32
  | Mask8_32x32
  | RGB24_48x48
  | Mask8_48x48
  | RGB24_128x128
  | Mask8_128x128
  | RGBA32_16x16
  | RGBA32_16x16_2x
  | RGBA32_32x32
  | RGBA32_32x32_2x
  | RGBA32_64x64
  | RGBA32_128x128
  | RGBA32_128x128_2x
  | RGBA32_256x256
  | RGBA32_256x256_2x
  | RGBA32_512x512
  | RGBA32_512x512_2x
deriving DecidableEq

/-- Encoding from src/icontype.rs.  Note: src/element.rs additionally
matches on Encoding::Mono and Encoding::MonoA, which do not exist in
this enum; the two source files are mutually inconsistent (see the
claim about the monochrome registry entries). -/
inductive Encoding where
  | Mask8
  | RLE24
  | JP2PNG
deriving DecidableEq

/-- IconType::from_ostype from src/icontype.rs.  Byte values spell the
four-character tags, e.g. [105,115,51,50] is "is32". -/
def IconType.from_ostype (ostype : OSType) : Option IconType :=
  match ostype with
  | ⟨105, 115, 51, 50⟩ => some .RGB24_16x16      -- is32
  | ⟨115, 56, 109, 107⟩ => some .Mask8_16x16     -- s8mk
  | ⟨105, 108, 51, 50⟩ => some .RGB24_32x32      -- il32
  | ⟨108, 56, 109, 107⟩ => some .Mask8_32x32     -- l8mk
  | ⟨105, 104, 51, 50⟩ => some .RGB24_48x48      -- ih32
  | ⟨104, 56, 109, 107⟩ => some .Mask8_48x48     -- h8mk
  | ⟨105, 116, 51, 50⟩ => some .RGB24_128x128    -- it32
  | ⟨116, 56, 109, 107⟩ => some .Mask8_128x128   -- t8mk
  | ⟨105, 99, 112, 52⟩ => some .RGBA32_16x16     -- icp4
  | ⟨105, 99, 49, 49⟩ => some .RGBA32_16x16_2x   -- ic11
  | ⟨105, 99, 112, 53⟩ => some .RGBA32_32x32     -- icp5
  | ⟨105, 99, 49, 50⟩ => some .RGBA32_32x32_2x   -- ic12
  | ⟨105, 99, 112, 54⟩ => some .RGBA32_64x64     -- icp6
  | ⟨105, 99, 48, 55⟩ => some .RGBA32_128x128    -- ic07
  | ⟨105, 99, 49, 51⟩ => some .RGBA32_128x128_2x -- ic13
  | ⟨105, 99, 48, 56⟩ => some .RGBA32_256x256    -- ic08
  | ⟨105, 99, 49, 52⟩ => some .RGBA32_256x256_2x -- ic14
  | ⟨105, 99, 48, 57⟩ => some .RGBA32_512x512    -- ic09
  | ⟨105, 99, 49, 48⟩ => some .RGBA32_512x512_2x -- ic10
  | _ => none

/-- IconType::ostype from src/icontype.rs. -/
def IconType.ostype : IconType → OSType
  | .RGB24_16x16 => ⟨105, 115, 51, 50⟩
  | .Mask8_16x16 => ⟨115, 56, 109, 107⟩
  | .RGB24_32x32 => ⟨105, 108, 51, 50⟩
  | .Mask8_32x32 => ⟨108, 56, 109, 107⟩
  | .RGB24_48x48 => ⟨105, 104, 51, 50⟩
  | .Mask8_48x48 => ⟨104, 56, 109, 107⟩
  | .RGB24_128x128 => ⟨105, 116, 51, 50⟩
  | .Mask8_128x128 => ⟨116, 56, 109, 107⟩
  | .RGBA32_16x16 => ⟨105, 99, 112, 52⟩
  | .RGBA32_16x16_2x => ⟨105, 99, 49, 49⟩
  | .RGBA32_32x32 => ⟨105, 99, 112, 53⟩
  | .RGBA32_32x32_2x => ⟨105, 99, 49, 50⟩
  | .RGBA32_64x64 => ⟨105, 99, 112, 54⟩
  | .RGBA32_128x128 => ⟨105, 99, 48, 55⟩
  | .RGBA32_128x128_2x => ⟨105, 99, 49, 51⟩
  | .RGBA32_256x256 => ⟨105, 99, 48, 56⟩
  | .RGBA32_256x256_2x => ⟨105, 99, 49, 52⟩
  | .RGBA32_512x512 => ⟨105, 99, 48, 57⟩
  | .RGBA32_512x512_2x => ⟨105, 99, 49, 48⟩

/-- IconType::is_mask from src/icontype.rs. -/
def IconType.is_mask : IconType → Bool
  | .Mask8_16x16 | .Mask8_32x32 | .Mask8_48x48 | .Mask8_128x128 => true
  | _ => false

/-- IconType::mask_type from src/icontype.rs. -/
def IconType.mask_type : IconType → Option IconType
  | .RGB24_16x16 => some .Mask8_16x16
  | .RGB24_32x32 => some .Mask8_32x32
  | .RGB24_48x48 => some .Mask8_48x48
  | .RGB24_128x128 => some .Mask8_128x128
  | _ => none

/-- IconType::pixel_density from src/icontype.rs. -/
def IconType.pixel_density : IconType → Nat
  | .RGBA32_16x16_2x | .RGBA32_32x32_2x | .RGBA32_128x128_2x
  | .RGBA32_256x256_2x | .RGBA32_512x512_2x => 2
  | _ => 1

/-- IconType::screen_width from src/icontype.rs. -/
def IconType.screen_width : IconType → Nat
  | .RGB24_16x16 => 16
  | .Mask8_16x16 => 16
  | .RGB24_32x32 => 32
  | .Mask8_32x32 => 32
  | .RGB24_48x48 => 48
  | .Mask8_48x48 => 48
  | .RGB24_128x128 => 128
  | .Mask8_128x128 => 128
  | .RGBA32_16x16 => 16
  | .RGBA32_16x16_2x => 16
  | .RGBA32_32x32 => 32
  | .RGBA32_32x32_2x => 32
  | .RGBA32_64x64 => 64
  | .RGBA32_128x128 => 128
  | .RGBA32_128x128_2x => 128
  | .RGBA32_256x256 => 256
  | .RGBA32_256x256_2x => 256
  | .RGBA32_512x512 => 512
  | .RGBA32_512x512_2x => 512

/-- IconType::screen_height from src/icontype.rs (identical table to
screen_width; all registered variants are square). -/
def IconType.screen_height : IconType → Nat
  | .RGB24_16x16 => 16
  | .Mask8_16x16 => 16
  | .RGB24_32x32 => 32
  | .Mask8_32x32 => 32
  | .RGB24_48x48 => 48
  | .Mask8_48x48 => 48
  | .RGB24_128x128 => 128
  | .Mask8_128x128 => 128
  | .RGBA32_16x16 => 16
  | .RGBA32_16x16_2x => 16
  | .RGBA32_32x32 => 32
  | .RGBA32_32x32_2x => 32
  | .RGBA32_64x64 => 64
  | .RGBA32_128x128 => 128
  | .RGBA32_128x128_2x => 128
  | .RGBA32_256x256 => 256
  | .RGBA32_256x256_2x => 256
  | .RGBA32_512x512 => 512
  | .RGBA32_512x512_2x => 512

/-- IconType::pixel_width from src/icontype.rs. -/
def IconType.pixel_width (t : IconType) : Nat :=
  t.screen_width * t.pixel_density

/-- IconType::pixel_height from src/icontype.rs. -/
def IconType.pixel_height (t : IconType) : Nat :=
  t.screen_height * t.pixel_density

/-- IconType::encoding from src/icontype.rs. -/
def IconType.encoding : IconType → Encoding
  | .RGB24_16x16 | .RGB24_32x32 | .RGB24_48x48 | .RGB24_128x128 => .RLE24
  | .Mask8_16x16 | .Mask8_32x32 | .Mask8_48x48 | .Mask8_128x128 => .Mask8
  | _ => .JP2PNG

/-- IconElement from src/element.rs: an OSType plus its raw data payload. -/
structure IconElement where
  ostype : OSType
  data : List Nat
deriving DecidableEq

/-- IconElement::icon_type from src/element.rs. -/
def IconElement.icon_type (e : IconElement) : Option IconType :=
  IconType.from_ostype e.ostype

/-- The run-measuring inner loop of encode_rle (src/element.rs lines
333-338): starting from run length `rl`, extend while the next pixel's
channel value equals `v`, the position stays below `num_pixels`, and the
run length stays below 130.  The loop body runs at most 129 times (the
`rl < 130` guard), so fuel 130 makes the fueled recursion exact. -/
def runLenGo (f : Nat → Nat) (npix pixel v : Nat) : Nat → Nat → Nat
  | fuel + 1, rl =>
    if pixel + rl < npix ∧ f (pixel + rl) = v ∧ rl < 130 then
      runLenGo f npix pixel v fuel (rl + 1)
    else rl
  | 0, rl => rl

/-- The run length computed by encode_rle at position `pixel` (the Rust
loop starts with run_length = 1). -/
def runLen (f : Nat → Nat) (npix pixel : Nat) : Nat :=
  runLenGo f npix pixel (f pixel) 130 1

/-- The channel bytes f litStart, f (litStart+1), ..., `n` of them: the
inner `for i in 0..literal_length` push loop of encode_rle. -/
def sliceMap (f : Nat → Nat) : Nat → Nat → List Nat
  | _, 0 => []
  | a, n + 1 => f a :: sliceMap f (a + 1) n

/-- The literal-flushing loop of encode_rle (src/element.rs lines
340-349 and 358-366): emit the pending literal window [litStart, stop)
in chunks of at most 128 bytes, each preceded by a header byte
`length - 1`.  Each iteration advances litStart by at least 1, so any
fuel exceeding `stop - litStart` makes the fueled recursion exact. -/
def flushLit (f : Nat → Nat) : Nat → Nat → Nat → List Nat
  | fuel + 1, litStart, stop =>
    if litStart < stop then
      let L := min 128 (stop - litStart)
      (L - 1) :: sliceMap f litStart L ++ flushLit f fuel (litStart + L) stop
    else []
  | 0, _, _ => []

/-- The per-channel `while pixel < num_pixels` loop of encode_rle
(src/element.rs lines 331-366), with the trailing literal flush.  Each
iteration advances `pixel` by the run length (at least 1), so any fuel
exceeding `npix - pixel` makes the fueled recursion exact. -/
def encLoop (f : Nat → Nat) (npix : Nat) : Nat → Nat → Nat → List Nat
  | fuel + 1, pixel, litStart =>
    if pixel < npix then
      let v := f pixel
      let rl := runLen f npix pixel
      if 3 ≤ rl then
        flushLit f (pixel - litStart + 1) litStart pixel ++
          (rl + 125) :: v :: encLoop f npix fuel (pixel + rl) (pixel + rl)
      else
        encLoop f npix fuel (pixel + rl) litStart
    else flushLit f (pixel - litStart + 1) litStart pixel
  | 0, pixel, litStart => flushLit f (pixel - litStart + 1) litStart pixel

/-- One channel's complete RLE24 encoding (encode_rle's body for a fixed
`channel`, starting at pixel 0 with an empty literal window). -/
def encodeChannel (f : Nat → Nat) (npix : Nat) : List Nat :=
  encLoop f npix (npix + 1) 0 0

/-- encode_rle from src/element.rs: the `for channel in 0..3` loop
unrolled; channel `c` of pixel `p` is input[num_input_channels * p + c].
The 128x128 payload is prefixed with four zero bytes. -/
def encode_rle (input : List Nat) (num_input_channels num_pixels : Nat) : List Nat :=
  (if num_pixels = 128 * 128 then [0, 0, 0, 0] else []) ++
  encodeChannel (fun p => input.getD (num_input_channels * p + 0) 0) num_pixels ++
  encodeChannel (fun p => input.getD (num_input_channels * p + 1) 0) num_pixels ++
  encodeChannel (fun p => input.getD (num_input_channels * p + 2) 0) num_pixels

/-- One pixel iteration of the decode_rle channel loop (src/element.rs
lines 391-408): when no packet is in progress (remaining = 0), read the
header byte (and the run value for a compressed packet); then emit one
output byte and decrement the remaining count.  Returns the emitted
byte, the unconsumed stream, and the updated packet state
(remaining, within_run, run_value). -/
def rleStep (s : List Nat) (r : Nat) (w : Bool) (rv : Nat) :
    Option (Nat × List Nat × Nat × Bool × Nat) :=
  if r = 0 then
    match s with
    | [] => none
    | hd :: t =>
      if hd < 128 then
        match t with
        | [] => none
        | b :: t2 => some (b, t2, hd, false, rv)
      else
        match t with
        | [] => none
        | v :: t2 => some (v, t2, hd - 126, true, v)
  else
    if w then some (rv, s, r - 1, w, rv)
    else
      match s with
      | [] => none
      | b :: t => some (b, t, r - 1, w, rv)

/-- One channel of the decode_rle loop (src/element.rs lines 390-409):
`n` pixel iterations against the byte stream `s`, threading the packet
state.  Returns the decoded channel bytes, the unconsumed stream, and
the final state. -/
def rleChannel : Nat → List Nat → Nat → Bool → Nat →
    Option (List Nat × List Nat × Nat × Bool × Nat)
  | 0, s, r, w, rv => some ([], s, r, w, rv)
  | n + 1, s, r, w, rv =>
    match rleStep s r w rv with
    | none => none
    | some (b, s', r', w', rv') =>
      match rleChannel n s' r' w' rv' with
      | none => none
      | some (out, s2, r2, w2, rv2) => some (b :: out, s2, r2, w2, rv2)

/-- The leading-zeros skip of decode_rle (src/element.rs lines 378-385):
if the payload starts with four zero bytes, they are skipped. -/
def skipHeader (input : List Nat) : List Nat :=
  if [0, 0, 0, 0].isPrefixOf input then input.drop 4 else input

/-- The three-channel body of decode_rle: after the optional four-zero
skip, decode each of the three channels (`num_pixels` bytes each); after
each channel the remaining packet count must be zero, and after the
third channel the input must be exhausted. -/
def decodeRleBody (input : List Nat) (num_pixels : Nat) :
    Option (List Nat × List Nat × List Nat) :=
  match rleChannel num_pixels (skipHeader input) 0 false 0 with
  | none => none
  | some (c1, s1, r1, w1, rv1) =>
    if r1 ≠ 0 then none
    else
      match rleChannel num_pixels s1 r1 w1 rv1 with
      | none => none
      | some (c2, s2, r2, w2, rv2) =>
        if r2 ≠ 0 then none
        else
          match rleChannel num_pixels s2 r2 w2 rv2 with
          | none => none
          | some (c3, s3, r3, _, _) =>
            if r3 ≠ 0 then none
            else if s3.isEmpty then some (c1, c2, c3) else none

/-- Interleave three equal-length channel lists with stride 3 (the
decoder writing output[3*pixel + channel]). -/
def interleave3 : List Nat → List Nat → List Nat → List Nat
  | r :: rs, g :: gs, b :: bs => r :: g :: b :: interleave3 rs gs bs
  | _, _, _ => []

/-- Interleave three equal-length channel lists with stride 4 (the
decoder writing output[4*pixel + channel] for channels 0..2, leaving the
zero-initialized byte at offset 4*pixel+3 untouched). -/
def interleave4 : List Nat → List Nat → List Nat → List Nat
  | r :: rs, g :: gs, b :: bs => r :: g :: b :: 0 :: interleave4 rs gs bs
  | _, _, _ => []

/-- decode_rle from src/element.rs.  The callers always pass a freshly
zero-filled output buffer of length `num_output_channels * num_pixels`;
the buffer writes at stride offsets are represented by interleaving the
three decoded channels (with the untouched zero in the fourth slot when
num_output_channels is 4, as asserted by the source). -/
def decode_rle (input : List Nat) (num_output_channels num_pixels : Nat) :
    Option (List Nat) :=
  match decodeRleBody input num_pixels with
  | none => none
  | some (c1, c2, c3) =>
    some (if num_output_channels = 4 then interleave4 c1 c2 c3
          else interleave3 c1 c2 c3)

/-- The first twelve bytes of a JPEG 2000 file (src/element.rs). -/
def jp2MagicBytes : List Nat :=
  [0x00, 0x00, 0x00, 0x0C, 0x6A, 0x50, 0x20, 0x20, 0x0D, 0x0A, 0x87, 0x0A]

/-- IconElement::encode_image_with_type from src/element.rs.  The
external PNG encoder (Image::write_png) is a parameter `pngEnc`: the
JP2PNG branch's payload is whatever bytes it produces.  The Encoding
enum of src/icontype.rs has no Mono/MonoA variants, so only the three
branches reachable from that registry are present. -/
def IconElement.encode_image_with_type (pngEnc : Image → List Nat)
    (image : Image) (icon_type : IconType) : Option IconElement :=
  let width := icon_type.pixel_width
  let height := icon_type.pixel_height
  if image.width ≠ width ∨ image.height ≠ height then none
  else
    let data :=
      match icon_type.encoding with
      | .JP2PNG => pngEnc image
      | .RLE24 =>
        let num_pixels := width * height
        match image.format with
        | .RGBA => encode_rle image.data 4 num_pixels
        | .RGB => encode_rle image.data 3 num_pixels
        | _ => encode_rle (image.convert_to .RGB).data 3 num_pixels
      | .Mask8 => (image.convert_to .Alpha).data
    some ⟨icon_type.ostype, data⟩

/-- IconElement::decode_image from src/element.rs.  The external PNG
decoder (Image::read_png) is the parameter `pngDec`. -/
def IconElement.decode_image (pngDec : List Nat → Option Image)
    (e : IconElement) : Option Image :=
  match IconType.from_ostype e.ostype with
  | none => none
  | some icon_type =>
    let width := icon_type.pixel_width
    let height := icon_type.pixel_height
    match icon_type.encoding with
    | .JP2PNG =>
      if jp2MagicBytes.isPrefixOf e.data then none
      else
        match pngDec e.data with
        | none => none
        | some image =>
          if image.width ≠ width ∨ image.height ≠ height then none
          else some image
    | .RLE24 =>
      let image := Image.new .RGB width height
      match decode_rle e.data 3 (image.data.length / 3) with
      | none => none
      | some buf => some { image with data := buf }
    | .Mask8 =>
      let num_pixels := width * height
      if e.data.length ≠ num_pixels then none
      else some { Image.new .Alpha width height with data := e.data }

/-- The alpha-filling loop of decode_image_with_mask (src/element.rs
lines 275-277): overwrite the byte at offset 4*i+3 of the RGBA buffer
with the i-th mask byte.  The call site has buffer length exactly
4 * mask length, which the chunked recursion mirrors. -/
def setAlphaChannel : List Nat → List Nat → List Nat
  | r :: g :: b :: _ :: rest, m :: ms => r :: g :: b :: m :: setAlphaChannel rest ms
  | buf, _ => buf

/-- IconElement::decode_image_with_mask from src/element.rs. -/
def IconElement.decode_image_with_mask (e mask : IconElement) : Option Image :=
  match IconType.from_ostype e.ostype with
  | none => none
  | some icon_type =>
    match icon_type.mask_type with
    | none => none
    | some mask_type =>
      if mask.ostype ≠ mask_type.ostype then none
      else
        let width := icon_type.pixel_width
        let height := icon_type.pixel_height
        let num_pixels := width * height
        if mask.data.length ≠ num_pixels then none
        else
          let image := Image.new .RGBA width height
          match decode_rle e.data 4 (image.data.length / 4) with
          | none => none
          | some buf => some { image with data := setAlphaChannel buf mask.data }

/-- IconElement::total_length from src/element.rs: 8 + payload length,
as a wrapping u32. -/
def IconElement.total_length (e : IconElement) : Nat :=
  (8 + e.data.length) % 2 ^ 32

/-- Big-endian u32 read (byteorder's read_u32::<BigEndian>): consume
four bytes or fail. -/
def readU32 : List Nat → Option (Nat × List Nat)
  | b0 :: b1 :: b2 :: b3 :: rest =>
    some (((b0 * 256 + b1) * 256 + b2) * 256 + b3, rest)
  | _ => none

/-- Big-endian u32 write (byteorder's write_u32::<BigEndian>). -/
def writeU32 (n : Nat) : List Nat :=
  [n / 2 ^ 24 % 256, n / 2 ^ 16 % 256, n / 2 ^ 8 % 256, n % 256]

/-- IconElement::read from src/element.rs: 4 OSType bytes, a big-endian
u32 element length (rejected if < 8), then length - 8 payload bytes. -/
def IconElement.read (s : List Nat) : Option (IconElement × List Nat) :=
  match s with
  | o0 :: o1 :: o2 :: o3 :: s1 =>
    match readU32 s1 with
    | none => none
    | some (element_length, s2) =>
      if element_length < 8 then none
      else
        let data_length := element_length - 8
        if s2.length < data_length then none
        else some (⟨⟨o0, o1, o2, o3⟩, s2.take data_length⟩, s2.drop data_length)
  | _ => none

/-- IconElement::write from src/element.rs: OSType bytes, big-endian
total length, payload. -/
def IconElement.write (e : IconElement) : List Nat :=
  [e.ostype.b0, e.ostype.b1, e.ostype.b2, e.ostype.b3] ++
    writeU32 e.total_length ++ e.data

/-- IconFamily from src/family.rs: the ordered list of elements. -/
structure IconFamily where
  elements : List IconElement
deriving DecidableEq

/-- IconFamily::total_length from src/family.rs: 8 plus each element's
total length, accumulated with wrapping u32 addition. -/
def IconFamily.total_length (fam : IconFamily) : Nat :=
  fam.elements.foldl (fun acc e => (acc + e.total_length) % 2 ^ 32) 8

/-- The magic literal "icns" from src/family.rs. -/
def icnsMagic : List Nat := [105, 99, 110, 115]

/-- The element-reading loop of IconFamily::read (src/family.rs lines
140-144): while file_position < file_length, read one element and
advance file_position by its total length (wrapping u32 addition).
Each iteration consumes at least 8 stream bytes, so any fuel exceeding
the stream length makes the fueled recursion exact. -/
def familyReadLoop : Nat → Nat → Nat → List Nat →
    Option (List IconElement × List Nat)
  | fuel + 1, pos, file_length, s =>
    if pos < file_length then
      match IconElement.read s with
      | none => none
      | some (e, s') =>
        match familyReadLoop fuel ((pos + e.total_length) % 2 ^ 32) file_length s' with
        | none => none
        | some (els, rest) => some (e :: els, rest)
    else some ([], s)
  | 0, pos, file_length, s => if pos < file_length then none else some ([], s)

/-- IconFamily::read from src/family.rs: check the magic, read the
declared file length, then read elements until the running position
(starting at 8) reaches it.  Returns the family and the unconsumed
remainder of the stream. -/
def IconFamily.read (s : List Nat) : Option (IconFamily × List Nat) :=
  match s with
  | m0 :: m1 :: m2 :: m3 :: s1 =>
    if [m0, m1, m2, m3] ≠ icnsMagic then none
    else
      match readU32 s1 with
      | none => none
      | some (file_length, s2) =>
        match familyReadLoop (s2.length + 1) 8 file_length s2 with
        | none => none
        | some (els, rest) => some (⟨els⟩, rest)
  | _ => none

/-- IconFamily::write from src/family.rs: magic, big-endian total
length, then each element in order. -/
def IconFamily.write (fam : IconFamily) : List Nat :=
  icnsMagic ++ writeU32 fam.total_length ++
    (fam.elements.map IconElement.write).flatten

/-- IconFamily::add_icon_with_type from src/family.rs: encode the
element, then (when the variant has a paired mask type) the mask
element, appending both.  When icon dimensions match the variant, the
mask encoding cannot fail after the color encoding succeeded, so the
partially-mutated-on-error Rust path is unreachable and the Option
model agrees with the source on all reachable behaviors. -/
def IconFamily.add_icon_with_type (pngEnc : Image → List Nat)
    (fam : IconFamily) (image : Image) (icon_type : IconType) :
    Option IconFamily :=
  match IconElement.encode_image_with_type pngEnc image icon_type with
  | none => none
  | some e =>
    match icon_type.mask_type with
    | none => some ⟨fam.elements ++ [e]⟩
    | some mask_type =>
      match IconElement.encode_image_with_type pngEnc image mask_type with
      | none => none
      | some em => some ⟨fam.elements ++ [e, em]⟩

/-- IconFamily::add_icon from src/family.rs: select a variant by
passing only the image's width and height to IconType::from_pixel_size,
then delegate to add_icon_with_type; fail when no variant matches.
IconType::from_pixel_size is referenced by the call site (src/family.rs
line 37) but its definition is not present anywhere under src/, so the
selection function is a parameter here, like the external PNG encoder;
the call site fixes its signature: it receives the two dimensions and
nothing else. -/
def IconFamily.add_icon (from_pixel_size : Nat → Nat → Option IconType)
    (pngEnc : Image → List Nat) (fam : IconFamily) (image : Image) :
    Option IconFamily :=
  match from_pixel_size image.width image.height with
  | some icon_type => fam.add_icon_with_type pngEnc image icon_type
  | none => none

/-- Specification-side grammar of one RLE24 channel: a sequence of
packets delivering exactly `n` output bytes.  A header below 128 starts
a literal packet of header+1 raw bytes; a header of at least 128 starts
a compressed packet repeating one value header-125 times. -/
inductive PacketSeq : Nat → List Nat → Prop where
  | nil : PacketSeq 0 []
  | lit (hd : Nat) (xs t : List Nat) (n : Nat) : hd < 128 → xs.length = hd + 1 →
      PacketSeq n t → PacketSeq (hd + 1 + n) (hd :: (xs ++ t))
  | run (hd v : Nat) (t : List Nat) (n : Nat) : 128 ≤ hd →
      PacketSeq n t → PacketSeq (hd - 125 + n) (hd :: v :: t)

/-- Specification-side well-formedness of an RLE24 payload for
`num_pixels` pixels: after the optional four-zero skip, the stream is
exactly three channel packet sequences, each delivering num_pixels
bytes, with nothing left over. -/
def RleWellFormed (input : List Nat) (num_pixels : Nat) : Prop :=
  ∃ c1 c2 c3, skipHeader input = c1 ++ c2 ++ c3 ∧
    PacketSeq num_pixels c1 ∧ PacketSeq num_pixels c2 ∧ PacketSeq num_pixels c3

/-- Specification-side helper for the conversion laws: keep each RGBA
pixel's R,G,B bytes and replace its alpha byte with 255. -/
def opaqueAlpha : List Nat → List Nat
  | r :: g :: b :: _ :: rest => r :: g :: b :: 255 :: opaqueAlpha rest
  | l => l

/-! ## Registry lemmas -/

theorem from_ostype_ostype (t : IconType) :
    IconType.from_ostype t.ostype = some t := by
  cases t <;> rfl

theorem rle24_area_ge_two (t : IconType) (h : t.encoding = .RLE24) :
    2 ≤ t.pixel_width * t.pixel_height := by
  cases t <;> revert h <;> decide

/-! ## Decoder channel lemmas -/

theorem rleChannel_add {m n : Nat} {s : List Nat} {r : Nat} {w : Bool} {rv : Nat}
    {o1 s1 r1 w1 rv1 o2 s2 r2 w2 rv2}
    (h1 : rleChannel m s r w rv = some (o1, s1, r1, w1, rv1))
    (h2 : rleChannel n s1 r1 w1 rv1 = some (o2, s2, r2, w2, rv2)) :
    rleChannel (m + n) s r w rv = some (o1 ++ o2, s2, r2, w2, rv2) := by
  induction m generalizing s r w rv o1 s1 r1 w1 rv1 with
  | zero =>
    simp only [rleChannel] at h1
    obtain ⟨h1o, h1s, h1r, h1w, h1rv⟩ := by simpa using h1
    subst h1o h1s h1r h1w h1rv
    simpa using h2
  | succ m ih =>
    rw [show m + 1 + n = (m + n) + 1 by omega]
    simp only [rleChannel] at h1 ⊢
    cases hstep : rleStep s r w rv with
    | none => simp [hstep] at h1
    | some res =>
      obtain ⟨b, s', r', w', rv'⟩ := res
      simp only [hstep] at h1 ⊢
      cases hrec : rleChannel m s' r' w' rv' with
      | none => simp [hrec] at h1
      | some res2 =>
        obtain ⟨out, sx, rx, wx, rvx⟩ := res2
        simp only [hrec] at h1
        obtain ⟨h1o, h1s, h1r, h1w, h1rv⟩ := by simpa using h1
        subst h1s h1r h1w h1rv
        rw [ih hrec h2, ← h1o]
        simp

theorem rleChannel_length {n : Nat} {s : List Nat} {r : Nat} {w : Bool} {rv : Nat}
    {out s' r' w' rv'}
    (h : rleChannel n s r w rv = some (out, s', r', w', rv')) :
    out.length = n := by
  induction n generalizing s r w rv out s' r' w' rv' with
  | zero =>
    simp only [rleChannel] at h
    obtain ⟨ho, -, -, -, -⟩ := by simpa using h
    simp [← ho]
  | succ n ih =>
    simp only [rleChannel] at h
    cases hstep : rleStep s r w rv with
    | none => simp [hstep] at h
    | some res =>
      obtain ⟨b, sx, rx, wx, rvx⟩ := res
      simp only [hstep] at h
      cases hrec : rleChannel n sx rx wx rvx with
      | none => simp [hrec] at h
      | some res2 =>
        obtain ⟨o2, s2, r2, w2, rv2⟩ := res2
        simp only [hrec] at h
        obtain ⟨ho, -, -, -, -⟩ := by simpa using h
        have := ih hrec
        simp [← ho, this]

theorem rleChannel_litDrain (xs : List Nat) (rest : List Nat) (rv : Nat) :
    rleChannel xs.length (xs ++ rest) xs.length false rv =
      some (xs, rest, 0, false, rv) := by
  induction xs generalizing rest with
  | nil => simp [rleChannel]
  | cons b t ih =>
    simp only [List.length_cons, List.cons_append, rleChannel, rleStep]
    simp [ih]

theorem rleChannel_runDrain (k : Nat) (s : List Nat) (v : Nat) :
    rleChannel k s k true v = some (List.replicate k v, s, 0, true, v) := by
  induction k with
  | zero => simp [rleChannel]
  | succ k ih =>
    simp only [rleChannel, rleStep]
    simp [ih, List.replicate_succ]

theorem rleChannel_litPacket (hd : Nat) (xs rest : List Nat) (w : Bool) (rv : Nat)
    (h1 : hd < 128) (h2 : xs.length = hd + 1) :
    rleChannel (hd + 1) ((hd :: xs) ++ rest) 0 w rv =
      some (xs, rest, 0, false, rv) := by
  cases xs with
  | nil => simp at h2
  | cons b t =>
    have ht : t.length = hd := by simpa using h2
    subst ht
    have hstep : rleStep ((t.length :: b :: t) ++ rest) 0 w rv =
        some (b, t ++ rest, t.length, false, rv) := by
      simp [rleStep, h1]
    simp only [rleChannel, hstep, rleChannel_litDrain]

set_option maxRecDepth 4000 in
theorem rleChannel_runPacket (hd v : Nat) (rest : List Nat) (w : Bool) (rv : Nat)
    (h1 : 128 ≤ hd) :
    rleChannel (hd - 125) (hd :: v :: rest) 0 w rv =
      some (List.replicate (hd - 125) v, rest, 0, true, v) := by
  rw [show hd - 125 = (hd - 126) + 1 by omega,
    show List.replicate ((hd - 126) + 1) v = v :: List.replicate (hd - 126) v from rfl]
  have hstep : rleStep (hd :: v :: rest) 0 w rv =
      some (v, rest, hd - 126, true, v) := by
    simp [rleStep, show ¬ hd < 128 by omega]
  simp only [rleChannel, hstep, rleChannel_runDrain]

/-! ## sliceMap lemmas -/

theorem sliceMap_length (f : Nat → Nat) (a n : Nat) :
    (sliceMap f a n).length = n := by
  induction n generalizing a with
  | zero => rfl
  | succ n ih => simp [sliceMap, ih]

theorem sliceMap_append (f : Nat → Nat) (a m n : Nat) :
    sliceMap f a (m + n) = sliceMap f a m ++ sliceMap f (a + m) n := by
  induction m generalizing a with
  | zero => simp [sliceMap]
  | succ m ih =>
    rw [show m + 1 + n = (m + n) + 1 by omega]
    simp only [sliceMap, ih]
    rw [show a + 1 + m = a + (m + 1) by omega]
    simp

theorem sliceMap_eq_replicate (f : Nat → Nat) (a n v : Nat)
    (h : ∀ i < n, f (a + i) = v) :
    sliceMap f a n = List.replicate n v := by
  induction n generalizing a with
  | zero => rfl
  | succ n ih =>
    have h0 : f a = v := by simpa using h 0 (by omega)
    have hrest : sliceMap f (a + 1) n = List.replicate n v :=
      ih (a + 1) fun i hi => by
        rw [show a + 1 + i = a + (i + 1) by omega]
        exact h (i + 1) (by omega)
    simp [sliceMap, List.replicate_succ, h0, hrest]

theorem sliceMap_shift (f : Nat → Nat) (a n : Nat) :
    sliceMap f (a + 1) n = sliceMap (fun i => f (i + 1)) a n := by
  induction n generalizing a with
  | zero => rfl
  | succ n ih => simp [sliceMap, ih]

theorem sliceMap_glue (f : Nat → Nat) (a mid n : Nat) (h : a ≤ mid) :
    sliceMap f a (mid - a) ++ sliceMap f mid n = sliceMap f a (mid - a + n) := by
  rw [sliceMap_append f a (mid - a) n, show a + (mid - a) = mid by omega]

theorem sliceMap_congr (f g : Nat → Nat) (a n : Nat)
    (h : ∀ i, f i = g i) :
    sliceMap f a n = sliceMap g a n := by
  induction n generalizing a with
  | zero => rfl
  | succ n ih => simp [sliceMap, h, ih]

/-! ## runLen lemmas -/

theorem runLenGo_ge (f : Nat → Nat) (npix pixel v : Nat) (fuel rl : Nat) :
    rl ≤ runLenGo f npix pixel v fuel rl := by
  induction fuel generalizing rl with
  | zero => simp [runLenGo]
  | succ fuel ih =>
    simp only [runLenGo]
    split
    · exact le_trans (by omega) (ih (rl + 1))
    · exact le_refl rl

theorem runLenGo_le (f : Nat → Nat) (npix pixel v : Nat) (fuel rl : Nat)
    (h : pixel + rl ≤ npix) :
    pixel + runLenGo f npix pixel v fuel rl ≤ npix := by
  induction fuel generalizing rl with
  | zero => simpa [runLenGo] using h
  | succ fuel ih =>
    simp only [runLenGo]
    split
    · exact ih (rl + 1) (by omega)
    · exact h

theorem runLenGo_all (f : Nat → Nat) (npix pixel v : Nat) (fuel rl : Nat)
    (h : ∀ i < rl, f (pixel + i) = v) :
    ∀ i < runLenGo f npix pixel v fuel rl, f (pixel + i) = v := by
  induction fuel generalizing rl with
  | zero => simpa [runLenGo] using h
  | succ fuel ih =>
    simp only [runLenGo]
    split
    · rename_i hcond
      exact ih (rl + 1) fun i hi => by
        rcases Nat.lt_succ_iff_lt_or_eq.mp hi with hlt | heq
        · exact h i hlt
        · subst heq; exact hcond.2.1
    · exact h

theorem runLen_ge_one (f : Nat → Nat) (npix pixel : Nat) :
    1 ≤ runLen f npix pixel :=
  runLenGo_ge f npix pixel (f pixel) 130 1

theorem runLen_le (f : Nat → Nat) (npix pixel : Nat) (h : pixel < npix) :
    pixel + runLen f npix pixel ≤ npix :=
  runLenGo_le f npix pixel (f pixel) 130 1 (by omega)

theorem runLen_all (f : Nat → Nat) (npix pixel : Nat) :
    ∀ i < runLen f npix pixel, f (pixel + i) = f pixel :=
  runLenGo_all f npix pixel (f pixel) 130 1 fun i hi => by
    interval_cases i
    simp

/-! ## Decoding the encoder's output -/

theorem flushLit_decode (f : Nat → Nat) (fuel a b : Nat) (rest : List Nat)
    (w : Bool) (rv : Nat) (hfuel : b - a < fuel) :
    ∃ w', rleChannel (b - a) (flushLit f fuel a b ++ rest) 0 w rv =
      some (sliceMap f a (b - a), rest, 0, w', rv) := by
  induction fuel generalizing a w with
  | zero => omega
  | succ fuel ih =>
    by_cases hab : a < b
    · have hL1 : 1 ≤ min 128 (b - a) := by omega
      have hL128 : min 128 (b - a) - 1 < 128 := by omega
      have hLle : min 128 (b - a) ≤ b - a := by omega
      have hsplit : b - a = min 128 (b - a) + (b - (a + min 128 (b - a))) := by omega
      have hpkt := rleChannel_litPacket (min 128 (b - a) - 1)
        (sliceMap f a (min 128 (b - a)))
        (flushLit f fuel (a + min 128 (b - a)) b ++ rest) w rv hL128
        (by rw [sliceMap_length]; omega)
      rw [show min 128 (b - a) - 1 + 1 = min 128 (b - a) by omega] at hpkt
      obtain ⟨w'', hrec⟩ := ih (a + min 128 (b - a)) false (by omega)
      refine ⟨w'', ?_⟩
      have hadd := rleChannel_add hpkt hrec
      rw [← sliceMap_append f a (min 128 (b - a)) (b - (a + min 128 (b - a)))] at hadd
      rw [← hsplit] at hadd
      simp only [flushLit, if_pos hab]
      rw [List.append_assoc]
      exact hadd
    · have hba : b - a = 0 := by omega
      refine ⟨w, ?_⟩
      rw [hba]
      simp [rleChannel, flushLit, if_neg hab, sliceMap]

theorem encLoop_decode (f : Nat → Nat) (npix : Nat) (fuel pixel litStart : Nat)
    (rest : List Nat) (w : Bool) (rv : Nat)
    (h1 : litStart ≤ pixel) (h2 : pixel ≤ npix) (h3 : npix - pixel < fuel) :
    ∃ w' rv', rleChannel (npix - litStart)
        (encLoop f npix fuel pixel litStart ++ rest) 0 w rv
      = some (sliceMap f litStart (npix - litStart), rest, 0, w', rv') := by
  induction fuel generalizing pixel litStart w rv with
  | zero => omega
  | succ fuel ih =>
    by_cases hp : pixel < npix
    · have hrl1 : 1 ≤ runLen f npix pixel := runLen_ge_one f npix pixel
      have hrl2 : pixel + runLen f npix pixel ≤ npix := runLen_le f npix pixel hp
      by_cases h3' : 3 ≤ runLen f npix pixel
      · -- flush the pending literal, emit a compressed packet, recurse
        obtain ⟨w1, hflush⟩ := flushLit_decode f (pixel - litStart + 1) litStart pixel
          ((runLen f npix pixel + 125) :: f pixel ::
            encLoop f npix fuel (pixel + runLen f npix pixel) (pixel + runLen f npix pixel)
            ++ rest) w rv (by omega)
        have hpkt := rleChannel_runPacket (runLen f npix pixel + 125) (f pixel)
          (encLoop f npix fuel (pixel + runLen f npix pixel) (pixel + runLen f npix pixel)
            ++ rest) w1 rv (by omega)
        rw [show runLen f npix pixel + 125 - 125 = runLen f npix pixel by omega] at hpkt
        obtain ⟨w', rv', hrec⟩ := ih (pixel + runLen f npix pixel)
          (pixel + runLen f npix pixel) true (f pixel) (le_refl _) hrl2 (by omega)
        refine ⟨w', rv', ?_⟩
        have hadd1 := rleChannel_add hpkt hrec
        have hadd2 := rleChannel_add hflush hadd1
        have hrep : List.replicate (runLen f npix pixel) (f pixel)
            = sliceMap f pixel (runLen f npix pixel) :=
          (sliceMap_eq_replicate f pixel (runLen f npix pixel) (f pixel)
            (runLen_all f npix pixel)).symm
        rw [hrep] at hadd2
        rw [← sliceMap_append f pixel (runLen f npix pixel)
          (npix - (pixel + runLen f npix pixel))] at hadd2
        rw [sliceMap_glue f litStart pixel
          (runLen f npix pixel + (npix - (pixel + runLen f npix pixel))) h1] at hadd2
        rw [show npix - litStart = (pixel - litStart) +
          (runLen f npix pixel + (npix - (pixel + runLen f npix pixel))) by omega]
        simp only [encLoop, if_pos hp, if_pos h3']
        rw [List.append_assoc]
        exact hadd2
      · -- extend the literal window and recurse
        obtain ⟨w', rv', hrec⟩ := ih (pixel + runLen f npix pixel) litStart w rv
          (by omega) hrl2 (by omega)
        refine ⟨w', rv', ?_⟩
        simp only [encLoop, if_pos hp, if_neg h3']
        exact hrec
    · have hpn : pixel = npix := by omega
      obtain ⟨w', hflush⟩ := flushLit_decode f (pixel - litStart + 1) litStart pixel
        rest w rv (by omega)
      refine ⟨w', rv, ?_⟩
      simp only [encLoop, if_neg hp]
      rw [← hpn]
      exact hflush

theorem encodeChannel_decode (f : Nat → Nat) (npix : Nat) (rest : List Nat)
    (w : Bool) (rv : Nat) :
    ∃ w' rv', rleChannel npix (encodeChannel f npix ++ rest) 0 w rv
      = some (sliceMap f 0 npix, rest, 0, w', rv') := by
  have h := encLoop_decode f npix (npix + 1) 0 0 rest w rv (le_refl 0)
    (Nat.zero_le npix) (by omega)
  simpa [encodeChannel] using h

/-! ## The encoder never starts a non-it32 payload with four zeros -/

theorem encLoop_no_zero_quad (f : Nat → Nat) (npix : Nat) (h2n : 2 ≤ npix) :
    ∀ fuel pixel rest, 1 ≤ pixel → pixel ≤ npix → npix - pixel < fuel →
      ¬ List.IsPrefix [0, 0, 0, 0] (encLoop f npix fuel pixel 0 ++ rest) := by
  intro fuel
  induction fuel with
  | zero => intro pixel rest h1 h2 h3; omega
  | succ fuel ih =>
    intro pixel rest h1 h2 h3 hpfx
    by_cases hp : pixel < npix
    · have hrl1 : 1 ≤ runLen f npix pixel := runLen_ge_one f npix pixel
      have hrl2 : pixel + runLen f npix pixel ≤ npix := runLen_le f npix pixel hp
      by_cases h3' : 3 ≤ runLen f npix pixel
      · simp only [encLoop, if_pos hp, if_pos h3'] at hpfx
        by_cases hpx : 2 ≤ pixel
        · -- first flushed chunk has length at least 2, so its header is nonzero
          have hL : 2 ≤ min 128 (pixel - 0) := by omega
          rw [show pixel - 0 + 1 = (pixel - 0) + 1 by omega] at hpfx
          simp only [flushLit, if_pos (show (0 : Nat) < pixel by omega)] at hpfx
          obtain ⟨tail, htail⟩ := hpfx
          simp only [List.cons_append, List.append_assoc] at htail
          have : (0 : Nat) = min 128 (pixel - 0) - 1 := by
            have := List.head_eq_of_cons_eq htail.symm
            omega
          omega
        · -- exactly one pending pixel: chunk [0, f 0], then a run header ≥ 128
          have hpx1 : pixel = 1 := by omega
          subst hpx1
          simp only [flushLit, sliceMap] at hpfx
          norm_num at hpfx
      · simp only [encLoop, if_pos hp, if_neg h3'] at hpfx
        exact ih (pixel + runLen f npix pixel) rest (by omega) hrl2 (by omega) hpfx
    · have hpn : pixel = npix := by omega
      simp only [encLoop, if_neg hp] at hpfx
      have hL : 2 ≤ min 128 (pixel - 0) := by omega
      simp only [flushLit, if_pos (show (0 : Nat) < pixel by omega)] at hpfx
      obtain ⟨tail, htail⟩ := hpfx
      simp only [List.cons_append, List.append_assoc] at htail
      have : (0 : Nat) = min 128 (pixel - 0) - 1 := by
        have := List.head_eq_of_cons_eq htail.symm
        omega
      omega

theorem encodeChannel_no_zero_quad (f : Nat → Nat) (npix : Nat) (h2n : 2 ≤ npix)
    (rest : List Nat) :
    ¬ List.IsPrefix [0, 0, 0, 0] (encodeChannel f npix ++ rest) := by
  intro hpfx
  have hp0 : 0 < npix := by omega
  have hrl1 : 1 ≤ runLen f npix 0 := runLen_ge_one f npix 0
  have hrl2 : 0 + runLen f npix 0 ≤ npix := runLen_le f npix 0 hp0
  simp only [encodeChannel, encLoop, if_pos hp0] at hpfx
  by_cases h3' : 3 ≤ runLen f npix 0
  · rw [if_pos h3'] at hpfx
    simp only [flushLit, sliceMap] at hpfx
    norm_num at hpfx
  · rw [if_neg h3'] at hpfx
    exact encLoop_no_zero_quad f npix h2n npix (0 + runLen f npix 0) rest
      (by omega) (by omega) (by omega) hpfx

/-! ## Interleave reconstruction -/

theorem interleave3_sliceMap (n : Nat) (d : List Nat) (h : d.length = 3 * n) :
    interleave3 (sliceMap (fun p => d.getD (3 * p + 0) 0) 0 n)
      (sliceMap (fun p => d.getD (3 * p + 1) 0) 0 n)
      (sliceMap (fun p => d.getD (3 * p + 2) 0) 0 n) = d := by
  induction n generalizing d with
  | zero =>
    have : d = [] := List.length_eq_zero.mp (by omega)
    subst this
    rfl
  | succ n ih =>
    match d, h with
    | a :: b :: c :: d', h =>
      have hlen : d'.length = 3 * n := by
        simp only [List.length_cons] at h
        omega
      simp only [sliceMap, interleave3]
      have hha : (a :: b :: c :: d').getD (3 * 0 + 0) 0 = a := by norm_num
      have hhb : (a :: b :: c :: d').getD (3 * 0 + 1) 0 = b := by norm_num
      have hhc : (a :: b :: c :: d').getD (3 * 0 + 2) 0 = c := by norm_num
      rw [hha, hhb, hhc]
      simp only [List.cons.injEq, true_and]
      have e0 : sliceMap (fun p => (a :: b :: c :: d').getD (3 * p + 0) 0) (0 + 1) n
          = sliceMap (fun p => d'.getD (3 * p + 0) 0) 0 n := by
        rw [sliceMap_shift]
        refine sliceMap_congr _ _ 0 n fun i => ?_
        show (a :: b :: c :: d').getD (3 * (i + 1) + 0) 0 = d'.getD (3 * i + 0) 0
        rw [show 3 * (i + 1) + 0 = 3 * i + 0 + 1 + 1 + 1 by ring]
        simp only [List.getD_cons_succ, Nat.add_zero]
      have e1 : sliceMap (fun p => (a :: b :: c :: d').getD (3 * p + 1) 0) (0 + 1) n
          = sliceMap (fun p => d'.getD (3 * p + 1) 0) 0 n := by
        rw [sliceMap_shift]
        refine sliceMap_congr _ _ 0 n fun i => ?_
        show (a :: b :: c :: d').getD (3 * (i + 1) + 1) 0 = d'.getD (3 * i + 1) 0
        rw [show 3 * (i + 1) + 1 = 3 * i + 1 + 1 + 1 + 1 by ring]
        simp only [List.getD_cons_succ]
      have e2 : sliceMap (fun p => (a :: b :: c :: d').getD (3 * p + 2) 0) (0 + 1) n
          = sliceMap (fun p => d'.getD (3 * p + 2) 0) 0 n := by
        rw [sliceMap_shift]
        refine sliceMap_congr _ _ 0 n fun i => ?_
        show (a :: b :: c :: d').getD (3 * (i + 1) + 2) 0 = d'.getD (3 * i + 2) 0
        rw [show 3 * (i + 1) + 2 = 3 * i + 2 + 1 + 1 + 1 by ring]
        simp only [List.getD_cons_succ]
      rw [e0, e1, e2]
      exact ih d' hlen

/-! ## Full RLE24 round-trip -/

theorem decodeRleBody_encode (d : List Nat) (n : Nat) (h2 : 2 ≤ n) :
    decodeRleBody (encode_rle d 3 n) n =
      some (sliceMap (fun p => d.getD (3 * p + 0) 0) 0 n,
            sliceMap (fun p => d.getD (3 * p + 1) 0) 0 n,
            sliceMap (fun p => d.getD (3 * p + 2) 0) 0 n) := by
  have hskip : skipHeader (encode_rle d 3 n) =
      encodeChannel (fun p => d.getD (3 * p + 0) 0) n ++
        (encodeChannel (fun p => d.getD (3 * p + 1) 0) n ++
          encodeChannel (fun p => d.getD (3 * p + 2) 0) n) := by
    by_cases hn : n = 128 * 128
    · simp only [encode_rle, if_pos hn, List.append_assoc]
      have hpf : ([0, 0, 0, 0] : List Nat).isPrefixOf
          ([0, 0, 0, 0] ++
            (encodeChannel (fun p => d.getD (3 * p + 0) 0) n ++
              (encodeChannel (fun p => d.getD (3 * p + 1) 0) n ++
                encodeChannel (fun p => d.getD (3 * p + 2) 0) n))) = true := by
        rw [List.isPrefixOf_iff_prefix]
        exact List.prefix_append _ _
      unfold skipHeader
      rw [if_pos hpf]
      rfl
    · simp only [encode_rle, if_neg hn, List.nil_append, List.append_assoc]
      have hnp := encodeChannel_no_zero_quad (fun p => d.getD (3 * p + 0) 0) n h2
        (encodeChannel (fun p => d.getD (3 * p + 1) 0) n ++
          encodeChannel (fun p => d.getD (3 * p + 2) 0) n)
      unfold skipHeader
      rw [if_neg fun hc => hnp (List.isPrefixOf_iff_prefix.mp hc)]
  obtain ⟨w1, rv1, hc1⟩ := encodeChannel_decode (fun p => d.getD (3 * p + 0) 0) n
    (encodeChannel (fun p => d.getD (3 * p + 1) 0) n ++
      encodeChannel (fun p => d.getD (3 * p + 2) 0) n) false 0
  obtain ⟨w2, rv2, hc2⟩ := encodeChannel_decode (fun p => d.getD (3 * p + 1) 0) n
    (encodeChannel (fun p => d.getD (3 * p + 2) 0) n) w1 rv1
  obtain ⟨w3, rv3, hc3⟩ := encodeChannel_decode (fun p => d.getD (3 * p + 2) 0) n
    [] w2 rv2
  rw [List.append_nil] at hc3
  simp only [decodeRleBody, hskip, hc1, hc2, hc3]
  norm_num

theorem decode_encode_rle (d : List Nat) (n : Nat) (h2 : 2 ≤ n)
    (hlen : d.length = 3 * n) :
    decode_rle (encode_rle d 3 n) 3 n = some d := by
  simp only [decode_rle, decodeRleBody_encode d n h2]
  rw [if_neg (by norm_num : ¬ ((3 : Nat) = 4))]
  exact congrArg some (interleave3_sliceMap n d hlen)

/-- Claim C1: for every RGB image whose width and height equal the pixel
dimensions of an RLE24 icon type (is32, il32, ih32, it32), encoding it
with encode_image_with_type for that type and then decoding the
resulting element with decode_image yields an RGB image with exactly
the same width, height, and pixel bytes.  The length hypothesis is the
Image invariant (3 bytes per pixel) that every Rust Image of RGB
format satisfies by construction. -/
theorem rle24_encode_decode_roundtrip (img : Image) (t : IconType)
    (pngEnc : Image → List Nat) (pngDec : List Nat → Option Image)
    (henc : t.encoding = Encoding.RLE24)
    (hfmt : img.format = PixelFormat.RGB)
    (hw : img.width = t.pixel_width) (hh : img.height = t.pixel_height)
    (hlen : img.data.length = 3 * (img.width * img.height)) :
    ∃ e, IconElement.encode_image_with_type pngEnc img t = some e ∧
      IconElement.decode_image pngDec e =
        some { format := PixelFormat.RGB, width := img.width,
               height := img.height, data := img.data } := by
  obtain ⟨fmt, w, h, d⟩ := img
  simp only at hfmt hw hh hlen
  subst hfmt hw hh
  refine ⟨⟨t.ostype, encode_rle d 3 (t.pixel_width * t.pixel_height)⟩, ?_, ?_⟩
  · simp only [IconElement.encode_image_with_type, henc]
    norm_num
  · simp only [IconElement.decode_image, from_ostype_ostype t, henc]
    have hnp : (Image.new PixelFormat.RGB t.pixel_width t.pixel_height).data.length / 3
        = t.pixel_width * t.pixel_height := by
      simp only [Image.new, PixelFormat.bits_per_pixel, List.length_replicate,
        Nat.mul_assoc]
      omega
    rw [hnp, decode_encode_rle d (t.pixel_width * t.pixel_height)
      (rle24_area_ge_two t henc) hlen]
    simp [Image.new]

/-- Claim C1 witness: the round trip at a concrete all-zero 16x16 RGB
image under the RLE24 type is32. -/
theorem rle24_encode_decode_roundtrip_witness :
    ∃ e, IconElement.encode_image_with_type (fun _ => [])
        ⟨PixelFormat.RGB, 16, 16, List.replicate 768 0⟩ IconType.RGB24_16x16 = some e ∧
      IconElement.decode_image (fun _ => none) e =
        some { format := PixelFormat.RGB, width := 16, height := 16,
               data := List.replicate 768 0 } :=
  rle24_encode_decode_roundtrip
    ⟨PixelFormat.RGB, 16, 16, List.replicate 768 0⟩ IconType.RGB24_16x16
    (fun _ => []) (fun _ => none) rfl rfl rfl rfl
    (by norm_num [Image.new])

/-! ## Decoder success characterization (for the well-formedness iff) -/

theorem rleChannel_mid (n : Nat) {s : List Nat} {r : Nat} {w : Bool} {rv : Nat}
    {out s' r' w' rv'}
    (h : rleChannel n s r w rv = some (out, s', r', w', rv')) (hlt : n < r) :
    r' = r - n := by
  induction n generalizing s r out s' r' w' rv' with
  | zero =>
    obtain ⟨-, -, hr, -, -⟩ := by simpa [rleChannel] using h
    omega
  | succ n ih =>
    simp only [rleChannel] at h
    cases w with
    | true =>
      have hstep : rleStep s r true rv = some (rv, s, r - 1, true, rv) := by
        simp [rleStep, show r ≠ 0 by omega]
      rw [hstep] at h
      cases hrec : rleChannel n s (r - 1) true rv with
      | none => simp [hrec] at h
      | some res =>
        obtain ⟨o2, s2, r2, w2, rv2⟩ := res
        simp only [hrec] at h
        obtain ⟨-, hs, hr, hww, hrv⟩ := by simpa using h
        subst hs hr hww hrv
        have := ih hrec (by omega)
        omega
    | false =>
      cases s with
      | nil => simp [rleStep, show r ≠ 0 by omega] at h
      | cons b t =>
        have hstep : rleStep (b :: t) r false rv = some (b, t, r - 1, false, rv) := by
          simp [rleStep, show r ≠ 0 by omega]
        rw [hstep] at h
        cases hrec : rleChannel n t (r - 1) false rv with
        | none => simp [hrec] at h
        | some res =>
          obtain ⟨o2, s2, r2, w2, rv2⟩ := res
          simp only [hrec] at h
          obtain ⟨-, hs, hr, hww, hrv⟩ := by simpa using h
          subst hs hr hww hrv
          have := ih hrec (by omega)
          omega

theorem rleChannel_peel_run (r : Nat) {n : Nat} {s : List Nat} {v : Nat}
    {out s' r' w' rv'}
    (h : rleChannel n s r true v = some (out, s', r', w', rv')) (hle : r ≤ n) :
    ∃ out2, out = List.replicate r v ++ out2 ∧
      rleChannel (n - r) s 0 true v = some (out2, s', r', w', rv') := by
  induction r generalizing n out with
  | zero => exact ⟨out, by simp, h⟩
  | succ r ih =>
    match n, hle with
    | m + 1, hle =>
      simp only [rleChannel] at h
      have hstep : rleStep s (r + 1) true v = some (v, s, r, true, v) := by
        simp [rleStep]
      rw [hstep] at h
      cases hrec : rleChannel m s r true v with
      | none => simp [hrec] at h
      | some res =>
        obtain ⟨o1, s1, r1, w1, rv1⟩ := res
        simp only [hrec] at h
        obtain ⟨ho, hs, hr, hw, hrv⟩ := by simpa using h
        subst hs hr hw hrv
        obtain ⟨out2, ho2, hrest⟩ := ih hrec (by omega)
        refine ⟨out2, ?_, ?_⟩
        · rw [← ho, ho2, List.replicate_succ]
          simp
        · simpa [show m + 1 - (r + 1) = m - r by omega] using hrest

theorem rleChannel_peel_lit (r : Nat) {n : Nat} {s : List Nat} {rv : Nat}
    {out s' r' w' rv'}
    (h : rleChannel n s r false rv = some (out, s', r', w', rv')) (hle : r ≤ n) :
    ∃ xs s2 out2, s = xs ++ s2 ∧ xs.length = r ∧ out = xs ++ out2 ∧
      rleChannel (n - r) s2 0 false rv = some (out2, s', r', w', rv') := by
  induction r generalizing n s out with
  | zero => exact ⟨[], s, out, by simp, rfl, by simp, h⟩
  | succ r ih =>
    match n, hle with
    | m + 1, hle =>
      simp only [rleChannel] at h
      cases s with
      | nil => simp [rleStep] at h
      | cons b t =>
        have hstep : rleStep (b :: t) (r + 1) false rv =
            some (b, t, r, false, rv) := by
          simp [rleStep]
        rw [hstep] at h
        cases hrec : rleChannel m t r false rv with
        | none => simp [hrec] at h
        | some res =>
          obtain ⟨o1, s1, r1, w1, rv1⟩ := res
          simp only [hrec] at h
          obtain ⟨ho, hs, hr, hw, hrv⟩ := by simpa using h
          subst hs hr hw hrv
          obtain ⟨xs, s2, out2, hts, hxl, ho2, hrest⟩ := ih hrec (by omega)
          refine ⟨b :: xs, s2, out2, by simp [hts], by simp [hxl], ?_, ?_⟩
          · rw [← ho, ho2]
            simp
          · simpa [show m + 1 - (r + 1) = m - r by omega] using hrest

theorem rleChannel_to_packets (n : Nat) :
    ∀ {s : List Nat} {w : Bool} {rv : Nat} {out s' w' rv'},
      rleChannel n s 0 w rv = some (out, s', 0, w', rv') →
      ∃ c, s = c ++ s' ∧ PacketSeq n c := by
  induction n using Nat.strong_induction_on with
  | _ n ih =>
    intro s w rv out s' w' rv' h
    match n with
    | 0 =>
      obtain ⟨-, hs, -, -, -⟩ := by simpa [rleChannel] using h
      exact ⟨[], by simp [hs], PacketSeq.nil⟩
    | m + 1 =>
      simp only [rleChannel] at h
      cases s with
      | nil => simp [rleStep] at h
      | cons hd t =>
        by_cases hh : hd < 128
        · cases t with
          | nil => simp [rleStep, hh] at h
          | cons b t2 =>
            have hstep : rleStep (hd :: b :: t2) 0 w rv =
                some (b, t2, hd, false, rv) := by
              simp [rleStep, hh]
            rw [hstep] at h
            cases hrec : rleChannel m t2 hd false rv with
            | none => simp [hrec] at h
            | some res =>
              obtain ⟨o1, s1, r1, w1, rv1⟩ := res
              simp only [hrec] at h
              obtain ⟨ho, hs, hr, hw, hrv⟩ := by simpa using h
              subst hs hr hw hrv
              have hle : hd ≤ m := by
                by_contra hgt
                have := rleChannel_mid m hrec (by omega)
                omega
              obtain ⟨xs, s2, out2, hts, hxl, ho2, hrest⟩ :=
                rleChannel_peel_lit hd hrec hle
              obtain ⟨c', hs2, hps⟩ := ih (m - hd) (by omega) hrest
              refine ⟨hd :: ((b :: xs) ++ c'), ?_, ?_⟩
              · subst hts hs2
                simp
              · rw [show m + 1 = hd + 1 + (m - hd) by omega]
                exact PacketSeq.lit hd (b :: xs) c' (m - hd) hh (by simp [hxl]) hps
        · cases t with
          | nil => simp [rleStep, hh] at h
          | cons v t2 =>
            have hstep : rleStep (hd :: v :: t2) 0 w rv =
                some (v, t2, hd - 126, true, v) := by
              simp [rleStep, hh]
            rw [hstep] at h
            cases hrec : rleChannel m t2 (hd - 126) true v with
            | none => simp [hrec] at h
            | some res =>
              obtain ⟨o1, s1, r1, w1, rv1⟩ := res
              simp only [hrec] at h
              obtain ⟨ho, hs, hr, hw, hrv⟩ := by simpa using h
              subst hs hr hw hrv
              have hle : hd - 126 ≤ m := by
                by_contra hgt
                have := rleChannel_mid m hrec (by omega)
                omega
              obtain ⟨out2, ho2, hrest⟩ := rleChannel_peel_run (hd - 126) hrec hle
              obtain ⟨c', hs2, hps⟩ := ih (m - (hd - 126)) (by omega) hrest
              refine ⟨hd :: v :: c', ?_, ?_⟩
              · subst hs2
                simp
              · rw [show m + 1 = (hd - 125) + (m - (hd - 126)) by omega]
                exact PacketSeq.run hd v c' (m - (hd - 126)) (by omega) hps

theorem packets_to_rleChannel {n : Nat} {c : List Nat} (hps : PacketSeq n c) :
    ∀ (rest : List Nat) (w : Bool) (rv : Nat),
      ∃ out w' rv', rleChannel n (c ++ rest) 0 w rv = some (out, rest, 0, w', rv') := by
  induction hps with
  | nil => exact fun rest w rv => ⟨[], w, rv, by simp [rleChannel]⟩
  | lit hd xs t n hlt hlen _ ih =>
    intro rest w rv
    obtain ⟨out2, w2, rv2, h2⟩ := ih rest false rv
    have hpkt := rleChannel_litPacket hd xs (t ++ rest) w rv hlt hlen
    have hadd := rleChannel_add hpkt h2
    refine ⟨xs ++ out2, w2, rv2, ?_⟩
    rw [show ((hd :: (xs ++ t)) ++ rest) = ((hd :: xs) ++ (t ++ rest)) by simp]
    exact hadd
  | run hd v t n hge _ ih =>
    intro rest w rv
    obtain ⟨out2, w2, rv2, h2⟩ := ih rest true v
    have hpkt := rleChannel_runPacket hd v (t ++ rest) w rv hge
    have hadd := rleChannel_add hpkt h2
    exact ⟨List.replicate (hd - 125) v ++ out2, w2, rv2, hadd⟩

set_option maxRecDepth 8000 in
/-- Claim C6: the RLE24 decoder fails exactly when the payload is
malformed: it succeeds if and only if, after the optional four-zero
skip, the payload consists of exactly three channel packet sequences,
each delivering exactly num_pixels bytes with no packet straddling a
channel boundary, and the input is fully consumed after the third
channel; in particular a 3-byte payload tagged is32 is an error. -/
theorem decode_rle_isSome_iff_wellformed :
    (∀ (input : List Nat) (num_pixels : Nat),
      (decode_rle input 3 num_pixels).isSome ↔ RleWellFormed input num_pixels) ∧
    (∀ pngDec, IconElement.decode_image pngDec
      ⟨⟨105, 115, 51, 50⟩, [0, 12, 255]⟩ = none) := by
  constructor
  · intro input npix
    constructor
    · intro h
      have hb : (decodeRleBody input npix).isSome := by
        unfold decode_rle at h
        cases hbody : decodeRleBody input npix with
        | none => rw [hbody] at h; simp at h
        | some res => simp
      unfold decodeRleBody at hb
      cases h1 : rleChannel npix (skipHeader input) 0 false 0 with
      | none => rw [h1] at hb; simp at hb
      | some res1 =>
        obtain ⟨c1o, s1, r1, w1, rv1⟩ := res1
        rw [h1] at hb
        by_cases hr1 : r1 = 0
        · subst hr1
          simp only [ne_eq, not_true_eq_false, if_false] at hb
          cases h2 : rleChannel npix s1 0 w1 rv1 with
          | none => simp [h2] at hb
          | some res2 =>
            obtain ⟨c2o, s2, r2, w2, rv2⟩ := res2
            simp only [h2] at hb
            by_cases hr2 : r2 = 0
            · subst hr2
              simp only [ne_eq, not_true_eq_false, if_false] at hb
              cases h3 : rleChannel npix s2 0 w2 rv2 with
              | none => simp [h3] at hb
              | some res3 =>
                obtain ⟨c3o, s3, r3, w3, rv3⟩ := res3
                simp only [h3] at hb
                by_cases hr3 : r3 = 0
                · subst hr3
                  simp only [ne_eq, not_true_eq_false, if_false] at hb
                  cases s3 with
                  | cons x xs => simp at hb
                  | nil =>
                    obtain ⟨cA, hsA, hpA⟩ := rleChannel_to_packets npix h1
                    obtain ⟨cB, hsB, hpB⟩ := rleChannel_to_packets npix h2
                    obtain ⟨cC, hsC, hpC⟩ := rleChannel_to_packets npix h3
                    refine ⟨cA, cB, cC, ?_, hpA, hpB, hpC⟩
                    rw [hsA, hsB, hsC]
                    simp [List.append_assoc]
                · simp [hr3] at hb
            · simp [hr2] at hb
        · simp [hr1] at hb
    · rintro ⟨c1, c2, c3, hs, hp1, hp2, hp3⟩
      obtain ⟨o1, w1, rv1, h1⟩ := packets_to_rleChannel hp1 (c2 ++ c3) false 0
      obtain ⟨o2, w2, rv2, h2⟩ := packets_to_rleChannel hp2 c3 w1 rv1
      obtain ⟨o3, w3, rv3, h3⟩ := packets_to_rleChannel hp3 [] w2 rv2
      rw [List.append_nil] at h3
      have hs' : skipHeader input = c1 ++ (c2 ++ c3) := by
        rw [hs, List.append_assoc]
      unfold decode_rle decodeRleBody
      rw [hs', h1]
      simp [h2, h3]
  · intro pngDec
    rfl

set_option maxRecDepth 20000 in
/-- Claim C7 counterexample: the is32 payload consisting of four zero
bytes followed by a valid three-channel encoding decodes successfully
(the decoder skips its leading zeros), but prepending the four bytes
00 00 00 00 to this valid payload makes decoding fail — so prepending
the quirk bytes to a valid payload does not always yield the same
decoded image, refuting the claim as stated. -/
theorem it32_prepend_counterexample :
    (IconElement.decode_image (fun _ => none)
      ⟨⟨105, 115, 51, 50⟩,
        [0, 0, 0, 0, 255, 0, 251, 0, 255, 0, 251, 0, 255, 0, 251, 0]⟩).isSome = true ∧
    IconElement.decode_image (fun _ => none)
      ⟨⟨105, 115, 51, 50⟩,
        [0, 0, 0, 0, 0, 0, 0, 0, 255, 0, 251, 0, 255, 0, 251, 0, 255, 0, 251, 0]⟩
      = none := by
  constructor
  · rfl
  · rfl

/-- Claim C7 (amended): encoding any 128x128 image under the RLE24 type
(it32) produces a payload whose first four bytes are zero; and on
decode, a payload beginning with 00 00 00 00 has those four bytes
skipped, so prepending them to a payload that does not already begin
with 00 00 00 00 yields the same decoded result. -/
theorem it32_quirk_amended (img : Image) (pngEnc : Image → List Nat)
    (hw : img.width = 128) (hh : img.height = 128) :
    (∃ e, IconElement.encode_image_with_type pngEnc img IconType.RGB24_128x128
        = some e ∧ e.data.take 4 = [0, 0, 0, 0]) ∧
    (∀ (p : List Nat) (noc npix : Nat), ¬ List.IsPrefix [0, 0, 0, 0] p →
      decode_rle ([0, 0, 0, 0] ++ p) noc npix = decode_rle p noc npix) := by
  constructor
  · obtain ⟨fmt, w, h, d⟩ := img
    simp only at hw hh
    subst hw hh
    cases fmt <;> exact ⟨_, rfl, rfl⟩
  · intro p noc npix hnp
    have h1 : skipHeader ([0, 0, 0, 0] ++ p) = p := by
      unfold skipHeader
      rw [if_pos (List.isPrefixOf_iff_prefix.mpr (List.prefix_append _ _))]
      rfl
    have h2 : skipHeader p = p := by
      unfold skipHeader
      rw [if_neg fun hc => hnp (List.isPrefixOf_iff_prefix.mp hc)]
    unfold decode_rle decodeRleBody
    rw [h1, h2]

/-- Claim C7 witness: the amended statement at a concrete 128x128 RGB
image and a concrete non-zero-prefixed payload. -/
theorem it32_quirk_amended_witness :
    (∃ e, IconElement.encode_image_with_type (fun _ => [])
        ⟨PixelFormat.RGB, 128, 128, []⟩ IconType.RGB24_128x128
        = some e ∧ e.data.take 4 = [0, 0, 0, 0]) ∧
    (∀ (p : List Nat) (noc npix : Nat), ¬ List.IsPrefix [0, 0, 0, 0] p →
      decode_rle ([0, 0, 0, 0] ++ p) noc npix = decode_rle p noc npix) :=
  it32_quirk_amended ⟨PixelFormat.RGB, 128, 128, []⟩ (fun _ => []) rfl rfl

/-! ## Mask fusion lemmas -/

theorem mask_type_encoding {t mt : IconType} (hmt : t.mask_type = some mt) :
    t.encoding = Encoding.RLE24 := by
  cases t <;> simp_all [IconType.mask_type, IconType.encoding]

theorem decodeRleBody_lengths {input : List Nat} {n : Nat} {c1 c2 c3 : List Nat}
    (h : decodeRleBody input n = some (c1, c2, c3)) :
    c1.length = n ∧ c2.length = n ∧ c3.length = n := by
  unfold decodeRleBody at h
  cases h1 : rleChannel n (skipHeader input) 0 false 0 with
  | none => rw [h1] at h; simp at h
  | some res1 =>
    obtain ⟨d1, s1, r1, w1, rv1⟩ := res1
    rw [h1] at h
    by_cases hr1 : r1 = 0
    · subst hr1
      simp only [ne_eq, not_true_eq_false, if_false] at h
      cases h2 : rleChannel n s1 0 w1 rv1 with
      | none => simp [h2] at h
      | some res2 =>
        obtain ⟨d2, s2, r2, w2, rv2⟩ := res2
        simp only [h2] at h
        by_cases hr2 : r2 = 0
        · subst hr2
          simp only [ne_eq, not_true_eq_false, if_false] at h
          cases h3 : rleChannel n s2 0 w2 rv2 with
          | none => simp [h3] at h
          | some res3 =>
            obtain ⟨d3, s3, r3, w3, rv3⟩ := res3
            simp only [h3] at h
            by_cases hr3 : r3 = 0
            · subst hr3
              simp only [ne_eq, not_true_eq_false, if_false] at h
              cases s3 with
              | cons x xs => simp at h
              | nil =>
                simp only [List.isEmpty_nil, if_true] at h
                obtain ⟨e1, e2, e3⟩ := by simpa using h
                subst e1 e2 e3
                exact ⟨rleChannel_length h1, rleChannel_length h2,
                  rleChannel_length h3⟩
            · simp [hr3] at h
        · simp [hr2] at h
    · simp [hr1] at h

theorem interleave3_getD (r : List Nat) :
    ∀ (g b : List Nat) (i : Nat), i < r.length →
      g.length = r.length → b.length = r.length →
      (interleave3 r g b).getD (3 * i) 0 = r.getD i 0 ∧
      (interleave3 r g b).getD (3 * i + 1) 0 = g.getD i 0 ∧
      (interleave3 r g b).getD (3 * i + 2) 0 = b.getD i 0 := by
  induction r with
  | nil => intro g b i hi; simp at hi
  | cons x rs ih =>
    intro g b i hi hg hb
    match g, b with
    | y :: gs, z :: bs =>
      have hg' : gs.length = rs.length := by simpa using hg
      have hb' : bs.length = rs.length := by simpa using hb
      cases i with
      | zero => simp [interleave3]
      | succ i =>
        have hi' : i < rs.length := by simpa using hi
        obtain ⟨e0, e1, e2⟩ := ih gs bs i hi' hg' hb'
        refine ⟨?_, ?_, ?_⟩
        · rw [show 3 * (i + 1) = 3 * i + 1 + 1 + 1 by ring]
          simpa [interleave3, List.getD_cons_succ] using e0
        · rw [show 3 * (i + 1) + 1 = 3 * i + 1 + 1 + 1 + 1 by ring]
          simpa [interleave3, List.getD_cons_succ] using e1
        · rw [show 3 * (i + 1) + 2 = 3 * i + 2 + 1 + 1 + 1 by ring]
          simpa [interleave3, List.getD_cons_succ] using e2

theorem setAlpha_interleave4_getD (r : List Nat) :
    ∀ (g b m : List Nat) (i : Nat), i < r.length →
      g.length = r.length → b.length = r.length → m.length = r.length →
      (setAlphaChannel (interleave4 r g b) m).getD (4 * i) 0 = r.getD i 0 ∧
      (setAlphaChannel (interleave4 r g b) m).getD (4 * i + 1) 0 = g.getD i 0 ∧
      (setAlphaChannel (interleave4 r g b) m).getD (4 * i + 2) 0 = b.getD i 0 ∧
      (setAlphaChannel (interleave4 r g b) m).getD (4 * i + 3) 0 = m.getD i 0 := by
  induction r with
  | nil => intro g b m i hi; simp at hi
  | cons x rs ih =>
    intro g b m i hi hg hb hm
    match g, b, m with
    | y :: gs, z :: bs, mv :: ms =>
      have hg' : gs.length = rs.length := by simpa using hg
      have hb' : bs.length = rs.length := by simpa using hb
      have hm' : ms.length = rs.length := by simpa using hm
      cases i with
      | zero => simp [interleave4, setAlphaChannel]
      | succ i =>
        have hi' : i < rs.length := by simpa using hi
        obtain ⟨e0, e1, e2, e3⟩ := ih gs bs ms i hi' hg' hb' hm'
        refine ⟨?_, ?_, ?_, ?_⟩
        · rw [show 4 * (i + 1) = 4 * i + 1 + 1 + 1 + 1 by ring]
          simpa [interleave4, setAlphaChannel, List.getD_cons_succ] using e0
        · rw [show 4 * (i + 1) + 1 = 4 * i + 1 + 1 + 1 + 1 + 1 by ring]
          simpa [interleave4, setAlphaChannel, List.getD_cons_succ] using e1
        · rw [show 4 * (i + 1) + 2 = 4 * i + 2 + 1 + 1 + 1 + 1 by ring]
          simpa [interleave4, setAlphaChannel, List.getD_cons_succ] using e2
        · rw [show 4 * (i + 1) + 3 = 4 * i + 3 + 1 + 1 + 1 + 1 by ring]
          simpa [interleave4, setAlphaChannel, List.getD_cons_succ] using e3

set_option maxRecDepth 40000 in
/-- Claim C8: decode_image_with_mask on an RLE24 color element, with a
mask element whose OSType equals the paired mask OSType and whose
payload length equals width*height, returns an RGBA image whose R,G,B
channels are the RLE24-decoded color data and whose byte at offset
4*i+3 equals byte i of the mask payload; a mask payload of any other
length is rejected; and on the concrete 19-byte is32 payload with a
256-byte mask of constant value 78 the first pixel is (12, 34, 56, 78). -/
theorem decode_image_with_mask_spec (e mask : IconElement) (t mt : IconType)
    (pngDec : List Nat → Option Image)
    (ht : IconType.from_ostype e.ostype = some t)
    (hmt : t.mask_type = some mt)
    (hos : mask.ostype = mt.ostype) :
    (mask.data.length ≠ t.pixel_width * t.pixel_height →
      e.decode_image_with_mask mask = none) ∧
    (mask.data.length = t.pixel_width * t.pixel_height →
      ∀ rgbImg, e.decode_image pngDec = some rgbImg →
        ∃ img, e.decode_image_with_mask mask = some img ∧
          img.format = PixelFormat.RGBA ∧
          img.width = t.pixel_width ∧ img.height = t.pixel_height ∧
          (∀ i < t.pixel_width * t.pixel_height,
            img.data.getD (4 * i) 0 = rgbImg.data.getD (3 * i) 0 ∧
            img.data.getD (4 * i + 1) 0 = rgbImg.data.getD (3 * i + 1) 0 ∧
            img.data.getD (4 * i + 2) 0 = rgbImg.data.getD (3 * i + 2) 0 ∧
            img.data.getD (4 * i + 3) 0 = mask.data.getD i 0)) ∧
    ((IconElement.decode_image_with_mask
        ⟨⟨105, 115, 51, 50⟩, [0, 12, 255, 0, 250, 0, 128, 34, 255, 0, 248, 0,
          1, 56, 99, 255, 0, 249, 0]⟩
        ⟨⟨115, 56, 109, 107⟩, List.replicate 256 78⟩).map
          (fun img => img.data.take 4)
      = some [12, 34, 56, 78]) := by
  have henc := mask_type_encoding hmt
  refine ⟨?_, ?_, ?_⟩
  · intro hlen
    simp only [IconElement.decode_image_with_mask, ht, hmt]
    rw [if_neg (by simp [hos]), if_pos hlen]
  · intro hlen rgbImg hdec
    simp only [IconElement.decode_image, ht, henc] at hdec
    have hnp3 : (Image.new PixelFormat.RGB t.pixel_width t.pixel_height).data.length / 3
        = t.pixel_width * t.pixel_height := by
      simp only [Image.new, PixelFormat.bits_per_pixel, List.length_replicate,
        Nat.mul_assoc]
      omega
    rw [hnp3] at hdec
    cases hbody : decodeRleBody e.data (t.pixel_width * t.pixel_height) with
    | none =>
      unfold decode_rle at hdec
      rw [hbody] at hdec
      simp at hdec
    | some cs =>
      obtain ⟨c1, c2, c3⟩ := cs
      unfold decode_rle at hdec
      simp only [hbody] at hdec
      norm_num at hdec
      obtain ⟨hl1, hl2, hl3⟩ := decodeRleBody_lengths hbody
      have hnp4 : (Image.new PixelFormat.RGBA t.pixel_width t.pixel_height).data.length / 4
          = t.pixel_width * t.pixel_height := by
        simp only [Image.new, PixelFormat.bits_per_pixel, List.length_replicate,
          Nat.mul_assoc]
        omega
      refine ⟨{ Image.new PixelFormat.RGBA t.pixel_width t.pixel_height
          with data := setAlphaChannel (interleave4 c1 c2 c3) mask.data },
        ?_, rfl, rfl, rfl, ?_⟩
      · simp only [IconElement.decode_image_with_mask, ht, hmt]
        rw [if_neg (by simp [hos]), if_neg (by simp [hlen]), hnp4]
        unfold decode_rle
        simp only [hbody]
        norm_num
      · intro i hi
        have hi1 : i < c1.length := by omega
        obtain ⟨f0, f1, f2, f3⟩ := setAlpha_interleave4_getD c1 c2 c3 mask.data i
          hi1 (by omega) (by omega) (by omega)
        obtain ⟨g0, g1, g2⟩ := interleave3_getD c1 c2 c3 i hi1 (by omega) (by omega)
        rw [← hdec]
        exact ⟨f0.trans g0.symm, f1.trans g1.symm, f2.trans g2.symm, f3⟩
  · rfl

set_option maxRecDepth 40000 in
/-- Claim C8 witness: the mask-fusion specification applied at the
concrete is32 element and s8mk mask of the repository's unit test. -/
theorem decode_image_with_mask_spec_witness :
    (((⟨⟨105, 115, 51, 50⟩, [0, 12, 255, 0, 250, 0, 128, 34, 255, 0, 248, 0,
          1, 56, 99, 255, 0, 249, 0]⟩ : IconElement)).decode_image_with_mask
        ⟨⟨115, 56, 109, 107⟩, List.replicate 256 78⟩).map
          (fun img => img.data.take 4)
      = some [12, 34, 56, 78] :=
  (decode_image_with_mask_spec
    ⟨⟨105, 115, 51, 50⟩, [0, 12, 255, 0, 250, 0, 128, 34, 255, 0, 248, 0,
      1, 56, 99, 255, 0, 249, 0]⟩
    ⟨⟨115, 56, 109, 107⟩, List.replicate 256 78⟩
    IconType.RGB24_16x16 IconType.Mask8_16x16 (fun _ => none)
    rfl rfl rfl).2.2

set_option maxRecDepth 40000 in
/-- Claim C9: the reference RLE24 encoder packetization policy: encoding
a Gray 16x16 image whose first five pixels are 44,55,66,66,66 under the
variant is32 produces an element tagged is32 whose payload begins with
the five bytes 01 2C 37 80 42 (a length-2 literal packet followed by a
length-3 compressed packet). -/
theorem encode_rle_policy_s3 :
    (IconElement.encode_image_with_type (fun _ => [])
      ⟨PixelFormat.Gray, 16, 16, [44, 55, 66, 66, 66] ++ List.replicate 251 0⟩
      IconType.RGB24_16x16).map (fun e => (e.ostype, e.data.take 5))
    = some (⟨105, 115, 51, 50⟩, [1, 44, 55, 128, 66]) := by
  rfl

/-! ## Pixel-format conversion laws -/

theorem rgba_rgb_rgba_data : ∀ (d : List Nat), d.length % 4 = 0 →
    rgb_to_rgba (rgba_to_rgb d) = opaqueAlpha d
  | [], _ => rfl
  | [a], h => by simp at h
  | [a, b], h => by simp at h
  | [a, b, c], h => by simp at h
  | a :: b :: c :: x :: rest, h => by
    have hr : rest.length % 4 = 0 := by
      simp only [List.length_cons] at h
      omega
    simp [rgba_to_rgb, rgb_to_rgba, opaqueAlpha, rgba_rgb_rgba_data rest hr]

theorem gray_rgba_gray_data : ∀ (d : List Nat), (∀ x ∈ d, x < 256) →
    rgba_to_gray (gray_to_rgba d) = d
  | [], _ => rfl
  | v :: rest, h => by
    have hv : v < 256 := h v (by simp)
    have hr := gray_rgba_gray_data rest (fun x hx => h x (by simp [hx]))
    simp only [gray_to_rgba, rgba_to_gray, hr]
    rw [show v + v + v = 3 * v by ring,
      Nat.mul_div_cancel_left v (by norm_num : (0 : Nat) < 3),
      Nat.mod_eq_of_lt hv]

theorem convert_to_idem (img : Image) (f : PixelFormat) :
    (img.convert_to f).convert_to f = img.convert_to f := by
  obtain ⟨fmt, w, h, d⟩ := img
  cases fmt <;> cases f <;> rfl

/-- Claim C10: the pixel-format conversion laws of Image::convert_to:
converting twice to the same format equals converting once; RGBA to RGB
and back preserves the R,G,B bytes of every pixel and sets every alpha
byte to 255; Gray to RGBA and back to Gray is the identity on the pixel
data; Alpha to Gray yields all zero bytes.  The two hypotheses are the
Image invariants (byte-valued data, 4 bytes per RGBA pixel) that every
Rust Image satisfies by construction. -/
theorem convert_to_laws (img : Image) (f : PixelFormat)
    (hbytes : ∀ x ∈ img.data, x < 256)
    (hlen4 : img.format = PixelFormat.RGBA → img.data.length % 4 = 0) :
    ((img.convert_to f).convert_to f = img.convert_to f) ∧
    (img.format = PixelFormat.RGBA →
      ((img.convert_to PixelFormat.RGB).convert_to PixelFormat.RGBA).data
        = opaqueAlpha img.data) ∧
    (img.format = PixelFormat.Gray →
      ((img.convert_to PixelFormat.RGBA).convert_to PixelFormat.Gray).data
        = img.data) ∧
    (img.format = PixelFormat.Alpha →
      (img.convert_to PixelFormat.Gray).data
        = List.replicate img.data.length 0) := by
  refine ⟨convert_to_idem img f, ?_, ?_, ?_⟩
  · intro hf
    obtain ⟨fmt, w, h, d⟩ := img
    simp only at hf hlen4 hbytes ⊢
    subst hf
    exact rgba_rgb_rgba_data d (hlen4 rfl)
  · intro hf
    obtain ⟨fmt, w, h, d⟩ := img
    simp only at hf hbytes ⊢
    subst hf
    exact gray_rgba_gray_data d hbytes
  · intro hf
    obtain ⟨fmt, w, h, d⟩ := img
    simp only at hf ⊢
    subst hf
    rfl

/-- Claim C10 witness: the conversion laws at a concrete 2x2 Gray image
and target format RGB. -/
theorem convert_to_laws_witness :
    (((⟨PixelFormat.Gray, 2, 2, [63, 127, 191, 255]⟩ : Image).convert_to
        PixelFormat.RGB).convert_to PixelFormat.RGB
      = (⟨PixelFormat.Gray, 2, 2, [63, 127, 191, 255]⟩ : Image).convert_to
        PixelFormat.RGB) ∧
    ((⟨PixelFormat.Gray, 2, 2, [63, 127, 191, 255]⟩ : Image).format
        = PixelFormat.RGBA →
      (((⟨PixelFormat.Gray, 2, 2, [63, 127, 191, 255]⟩ : Image).convert_to
          PixelFormat.RGB).convert_to PixelFormat.RGBA).data
        = opaqueAlpha (⟨PixelFormat.Gray, 2, 2, [63, 127, 191, 255]⟩ : Image).data) ∧
    ((⟨PixelFormat.Gray, 2, 2, [63, 127, 191, 255]⟩ : Image).format
        = PixelFormat.Gray →
      (((⟨PixelFormat.Gray, 2, 2, [63, 127, 191, 255]⟩ : Image).convert_to
          PixelFormat.RGBA).convert_to PixelFormat.Gray).data
        = (⟨PixelFormat.Gray, 2, 2, [63, 127, 191, 255]⟩ : Image).data) ∧
    ((⟨PixelFormat.Gray, 2, 2, [63, 127, 191, 255]⟩ : Image).format
        = PixelFormat.Alpha →
      ((⟨PixelFormat.Gray, 2, 2, [63, 127, 191, 255]⟩ : Image).convert_to
          PixelFormat.Gray).data
        = List.replicate (⟨PixelFormat.Gray, 2, 2, [63, 127, 191, 255]⟩ : Image).data.length 0) :=
  convert_to_laws ⟨PixelFormat.Gray, 2, 2, [63, 127, 191, 255]⟩ PixelFormat.RGB
    (by decide) (by decide)

/-- Claim C4 (code evaluation at the failing inputs): IconType::
from_ostype returns None for the OSType "ICON" (bytes 73,67,79,78) and
for the OSType "ICN#" (bytes 73,67,78,35).  The registry in
src/icontype.rs has no monochrome entries, although src/element.rs
matches on Encoding::Mono and Encoding::MonoA — encodings that only
monochrome registry entries could produce and that do not exist in
icontype.rs's Encoding enum — so the two source files are mutually
inconsistent and the registry file is missing the monochrome rows that
the specification's table lists. -/
theorem from_ostype_monochrome_missing :
    IconType.from_ostype ⟨73, 67, 79, 78⟩ = none ∧
    IconType.from_ostype ⟨73, 67, 78, 35⟩ = none :=
  ⟨rfl, rfl⟩

theorem encode_image_with_type_ostype (pngEnc : Image → List Nat)
    (img : Image) (t : IconType) {e : IconElement}
    (h : IconElement.encode_image_with_type pngEnc img t = some e) :
    e.ostype = t.ostype := by
  simp only [IconElement.encode_image_with_type] at h
  split at h
  · exact absurd h (by simp)
  · simp only [Option.some.injEq] at h
    subst h
    rfl

theorem add_icon_with_type_shape (pngEnc : Image → List Nat)
    (fam : IconFamily) (img : Image) (t : IconType) {fam' : IconFamily}
    (h : IconFamily.add_icon_with_type pngEnc fam img t = some fam') :
    ∃ e rest, fam'.elements = fam.elements ++ e :: rest ∧
      e.ostype = t.ostype := by
  unfold IconFamily.add_icon_with_type at h
  cases henc : IconElement.encode_image_with_type pngEnc img t with
  | none =>
    simp only [henc] at h
    exact absurd h (by simp)
  | some e =>
    simp only [henc] at h
    cases hm : t.mask_type with
    | none =>
      simp only [hm, Option.some.injEq] at h
      exact ⟨e, [], by rw [← h], encode_image_with_type_ostype pngEnc img t henc⟩
    | some mt =>
      simp only [hm] at h
      cases henc2 : IconElement.encode_image_with_type pngEnc img mt with
      | none =>
        simp only [henc2] at h
        exact absurd h (by simp)
      | some em =>
        simp only [henc2, Option.some.injEq] at h
        exact ⟨e, [em], by rw [← h], encode_image_with_type_ostype pngEnc img t henc⟩

/-- Claim C3: the staged IconFamily::add_icon (src/family.rs line 37)
passes only the image's width and height to the variant-selection call,
so the chosen variant cannot depend on alpha presence: for every
selection function, whenever add_icon succeeds on a 16x16 RGBA image
and on a 16x16 RGB image, the first element appended in each case
carries the ostype of the one variant selected at (16, 16) — the same
ostype in both cases.  The specification's rule (icp4 when the format
has an alpha channel, is32 with the s8mk mask pair when not) would
require those two ostypes to differ (icp4 vs is32), so the program
cannot realize it, whatever the absent IconType::from_pixel_size
returns. -/
theorem add_icon_selection_ignores_alpha
    (from_pixel_size : Nat → Nat → Option IconType)
    (pngEnc : Image → List Nat) (fam : IconFamily) (d1 d2 : List Nat)
    (famA famB : IconFamily)
    (hA : IconFamily.add_icon from_pixel_size pngEnc fam
        ⟨PixelFormat.RGBA, 16, 16, d1⟩ = some famA)
    (hB : IconFamily.add_icon from_pixel_size pngEnc fam
        ⟨PixelFormat.RGB, 16, 16, d2⟩ = some famB) :
    ∃ t eA restA eB restB, from_pixel_size 16 16 = some t ∧
      famA.elements = fam.elements ++ eA :: restA ∧ eA.ostype = t.ostype ∧
      famB.elements = fam.elements ++ eB :: restB ∧ eB.ostype = t.ostype := by
  unfold IconFamily.add_icon at hA hB
  cases hf : from_pixel_size 16 16 with
  | none => simp [hf] at hA
  | some t =>
    simp only [hf] at hA hB
    obtain ⟨eA, restA, hAe, hAo⟩ := add_icon_with_type_shape pngEnc fam _ t hA
    obtain ⟨eB, restB, hBe, hBo⟩ := add_icon_with_type_shape pngEnc fam _ t hB
    exact ⟨t, eA, restA, eB, restB, rfl, hAe, hAo, hBe, hBo⟩

/-- Claim C3 witness: the theorem at a concrete selection function
(constantly RGBA32_16x16), the trivial PNG encoder, the empty family,
and a concrete pair of 16x16 images differing in alpha presence. -/
theorem add_icon_selection_ignores_alpha_witness :
    ∃ t eA restA eB restB,
      ((fun _ _ => some IconType.RGBA32_16x16) : Nat → Nat → Option IconType)
        16 16 = some t ∧
      (⟨[⟨⟨105, 99, 112, 52⟩, []⟩]⟩ : IconFamily).elements
        = (⟨[]⟩ : IconFamily).elements ++ eA :: restA ∧ eA.ostype = t.ostype ∧
      (⟨[⟨⟨105, 99, 112, 52⟩, []⟩]⟩ : IconFamily).elements
        = (⟨[]⟩ : IconFamily).elements ++ eB :: restB ∧ eB.ostype = t.ostype :=
  add_icon_selection_ignores_alpha (fun _ _ => some IconType.RGBA32_16x16)
    (fun _ => []) ⟨[]⟩ [] [] ⟨[⟨⟨105, 99, 112, 52⟩, []⟩]⟩
    ⟨[⟨⟨105, 99, 112, 52⟩, []⟩]⟩ rfl rfl

/-- Claim C2 counterexample: a file whose declared total length is 7
(less than 8) is accepted by IconFamily::read without any error,
returning an empty family — the claimed InvalidData report does not
happen. -/
theorem family_read_short_length_counterexample :
    IconFamily.read [105, 99, 110, 115, 0, 0, 0, 7] = some (⟨[]⟩, []) := rfl

theorem familyReadLoop_stop (fuel pos flen : Nat) (s : List Nat)
    (h : ¬ pos < flen) :
    familyReadLoop fuel pos flen s = some ([], s) := by
  cases fuel <;> simp [familyReadLoop, h]

theorem readU32_writeU32 (n : Nat) (rest : List Nat) (h : n < 2 ^ 32) :
    readU32 (writeU32 n ++ rest) = some (n, rest) := by
  simp only [writeU32, List.cons_append, List.nil_append, readU32,
    Option.some.injEq, Prod.mk.injEq]
  constructor
  · omega
  · trivial

theorem familyReadLoop_cons (fuel pos flen : Nat) (s : List Nat)
    (h : pos < flen) {e : IconElement} {s' : List Nat}
    (he : IconElement.read s = some (e, s')) :
    familyReadLoop (fuel + 1) pos flen s =
      match familyReadLoop fuel ((pos + e.total_length) % 2 ^ 32) flen s' with
      | none => none
      | some (els, rest) => some (e :: els, rest) := by
  simp [familyReadLoop, h, he]

/-- Claim C2 (amended): IconFamily::read performs neither of the two
claimed validations: a declared total length below 8 makes the element
loop exit immediately, yielding an empty family without error; and an
element whose framed length pushes the running file position past the
declared total length is still read successfully and included — the
loop merely stops once the position reaches or passes the declared
length.  (Read errors come only from a wrong magic, an element length
field below 8, or stream exhaustion.) -/
theorem family_read_no_length_validation :
    (∀ (n : Nat) (rest : List Nat), n < 8 →
      IconFamily.read (icnsMagic ++ [0, 0, 0, n] ++ rest) = some (⟨[]⟩, rest)) ∧
    (∀ (os : OSType) (data rest : List Nat), data.length + 16 < 2 ^ 32 →
      IconFamily.read (icnsMagic ++ writeU32 9 ++ [os.b0, os.b1, os.b2, os.b3] ++
          writeU32 (8 + data.length) ++ data ++ rest)
        = some (⟨[⟨os, data⟩]⟩, rest)) := by
  constructor
  · intro n rest hn
    show IconFamily.read (105 :: 99 :: 110 :: 115 :: 0 :: 0 :: 0 :: n :: rest)
      = some (⟨[]⟩, rest)
    simp only [IconFamily.read, readU32]
    rw [if_neg (by simp [icnsMagic])]
    simp only [Nat.mul_zero, Nat.zero_add, Nat.zero_mul]
    rw [familyReadLoop_stop _ _ _ _ (by omega)]
  · intro os data rest hlt
    have hw1 : readU32 (writeU32 (8 + data.length) ++ (data ++ rest))
        = some (8 + data.length, data ++ rest) :=
      readU32_writeU32 _ _ (by omega)
    have helem : IconElement.read
        (os.b0 :: os.b1 :: os.b2 :: os.b3 ::
          (writeU32 (8 + data.length) ++ (data ++ rest)))
        = some (⟨⟨os.b0, os.b1, os.b2, os.b3⟩, data⟩, rest) := by
      simp only [IconElement.read, hw1]
      rw [if_neg (by omega)]
      rw [if_neg (by simp only [List.length_append]; omega)]
      rw [show 8 + data.length - 8 = data.length by omega]
      rw [show (data ++ rest).take data.length = data from List.take_left data rest]
      rw [show (data ++ rest).drop data.length = rest from List.drop_left data rest]
    show IconFamily.read (105 :: 99 :: 110 :: 115 :: 0 :: 0 :: 0 :: 9 ::
        (os.b0 :: os.b1 :: os.b2 :: os.b3 ::
          (writeU32 (8 + data.length) ++ (data ++ rest))))
      = some (⟨[⟨os, data⟩]⟩, rest)
    simp only [IconFamily.read, readU32]
    rw [if_neg (by simp [icnsMagic])]
    simp only [Nat.mul_zero, Nat.zero_add, Nat.zero_mul]
    have hlen : (os.b0 :: os.b1 :: os.b2 :: os.b3 ::
        (writeU32 (8 + data.length) ++ (data ++ rest))).length + 1
        = (data.length + rest.length + 8) + 1 := by
      simp only [List.length_cons, List.length_append, List.length_nil, writeU32]
      omega
    rw [hlen, familyReadLoop_cons _ _ _ _ (by omega) helem]
    have htot : ((⟨⟨os.b0, os.b1, os.b2, os.b3⟩, data⟩ : IconElement).total_length)
        = 8 + data.length := by
      simp only [IconElement.total_length]
      omega
    rw [htot, show (8 + (8 + data.length)) % 2 ^ 32 = 16 + data.length by omega]
    rw [familyReadLoop_stop _ _ _ _ (by omega)]

/-- Claim C2 witness: the amended statement at two concrete inputs: a
declared length of 5 with trailing bytes, and a declared length of 9
followed by a 10-byte element. -/
theorem family_read_no_length_validation_witness :
    IconFamily.read (icnsMagic ++ [0, 0, 0, 5] ++ [9, 9]) = some (⟨[]⟩, [9, 9]) ∧
    IconFamily.read (icnsMagic ++ writeU32 9 ++ [113, 117, 117, 120] ++
        writeU32 (8 + 2) ++ [7, 8] ++ [1])
      = some (⟨[⟨⟨113, 117, 117, 120⟩, [7, 8]⟩]⟩, [1]) :=
  ⟨family_read_no_length_validation.1 5 [9, 9] (by omega),
   family_read_no_length_validation.2 ⟨113, 117, 117, 120⟩ [7, 8] [1] (by norm_num)⟩

/-! ## Family round-trip lemmas -/

theorem writeU32_bytes (b0 b1 b2 b3 : Nat) (h0 : b0 < 256) (h1 : b1 < 256)
    (h2 : b2 < 256) (h3 : b3 < 256) :
    writeU32 (((b0 * 256 + b1) * 256 + b2) * 256 + b3) = [b0, b1, b2, b3] := by
  simp only [writeU32, List.cons.injEq, and_true]
  refine ⟨?_, ?_, ?_, ?_⟩ <;> omega

theorem element_read_write {s : List Nat} {e : IconElement} {s' : List Nat}
    (h : IconElement.read s = some (e, s')) (hb : ∀ x ∈ s, x < 256) :
    s = IconElement.write e ++ s' ∧ (∀ x ∈ s', x < 256) := by
  match s with
  | [] => simp [IconElement.read] at h
  | [o0] => simp [IconElement.read] at h
  | [o0, o1] => simp [IconElement.read] at h
  | [o0, o1, o2] => simp [IconElement.read] at h
  | o0 :: o1 :: o2 :: o3 :: s1 =>
    match s1 with
    | [] => simp [IconElement.read, readU32] at h
    | [l0] => simp [IconElement.read, readU32] at h
    | [l0, l1] => simp [IconElement.read, readU32] at h
    | [l0, l1, l2] => simp [IconElement.read, readU32] at h
    | l0 :: l1 :: l2 :: l3 :: s2 =>
      have hb0 : l0 < 256 := hb l0 (by simp)
      have hb1 : l1 < 256 := hb l1 (by simp)
      have hb2 : l2 < 256 := hb l2 (by simp)
      have hb3 : l3 < 256 := hb l3 (by simp)
      simp only [IconElement.read, readU32] at h
      by_cases hL8 : ((l0 * 256 + l1) * 256 + l2) * 256 + l3 < 8
      · rw [if_pos hL8] at h
        simp at h
      · rw [if_neg hL8] at h
        by_cases hsl : s2.length < ((l0 * 256 + l1) * 256 + l2) * 256 + l3 - 8
        · rw [if_pos hsl] at h
          simp at h
        · rw [if_neg hsl] at h
          obtain ⟨he, hs'⟩ := by simpa using h
          subst he hs'
          constructor
          · simp only [IconElement.write, IconElement.total_length]
            have hlen : ((s2.take (((l0 * 256 + l1) * 256 + l2) * 256 + l3 - 8)).length)
                = ((l0 * 256 + l1) * 256 + l2) * 256 + l3 - 8 := by
              simp only [List.length_take]
              omega
            rw [hlen,
              show 8 + (((l0 * 256 + l1) * 256 + l2) * 256 + l3 - 8)
                = ((l0 * 256 + l1) * 256 + l2) * 256 + l3 by omega,
              Nat.mod_eq_of_lt (by omega :
                ((l0 * 256 + l1) * 256 + l2) * 256 + l3 < 2 ^ 32),
              writeU32_bytes l0 l1 l2 l3 hb0 hb1 hb2 hb3]
            simp [List.take_append_drop]
          · intro x hx
            exact hb x (by
              simp only [List.mem_cons]
              right; right; right; right; right; right; right; right
              exact List.drop_subset _ _ hx)

theorem familyReadLoop_write (fuel : Nat) :
    ∀ (pos flen : Nat) (s : List Nat) (els : List IconElement),
      familyReadLoop fuel pos flen s = some (els, []) →
      (∀ x ∈ s, x < 256) →
      s = (els.map IconElement.write).flatten := by
  induction fuel with
  | zero =>
    intro pos flen s els h hb
    by_cases hp : pos < flen
    · simp [familyReadLoop, hp] at h
    · simp only [familyReadLoop, if_neg hp] at h
      obtain ⟨hels, hs⟩ := by simpa using h
      subst hels
      simp [← hs]
  | succ fuel ih =>
    intro pos flen s els h hb
    by_cases hp : pos < flen
    · simp only [familyReadLoop, if_pos hp] at h
      cases hre : IconElement.read s with
      | none => rw [hre] at h; simp at h
      | some res =>
        obtain ⟨e, s'⟩ := res
        simp only [hre] at h
        cases hrec : familyReadLoop fuel ((pos + e.total_length) % 2 ^ 32) flen s' with
        | none => rw [hrec] at h; simp at h
        | some res2 =>
          obtain ⟨els', rest'⟩ := res2
          rw [hrec] at h
          obtain ⟨hels, hrest⟩ := by simpa using h
          subst hels
          subst hrest
          obtain ⟨hws, hb'⟩ := element_read_write hre hb
          rw [hws, ih _ _ _ _ hrec hb']
          simp
    · simp only [familyReadLoop, if_neg hp] at h
      obtain ⟨hels, hs⟩ := by simpa using h
      subst hels
      simp [← hs]

/-- Claim C5 counterexample: the 8-byte input "icns" followed by the
declared length 0 is accepted by read (yielding an empty family), but
writing that family produces "icns" followed by 8 — not the original
byte sequence — refuting the round-trip claim as stated. -/
theorem family_roundtrip_counterexample :
    IconFamily.read [105, 99, 110, 115, 0, 0, 0, 0] = some (⟨[]⟩, []) ∧
    IconFamily.write ⟨[]⟩ ≠ [105, 99, 110, 115, 0, 0, 0, 0] := by
  constructor
  · rfl
  · decide

/-- Claim C5 (amended): write∘read reproduces the original byte
sequence for the inputs read fully consumes whose declared length field
matches the serialized family's total length: if read accepts `s` with
nothing left over, all values in `s` are bytes, and the four length
bytes of `s` equal the big-endian encoding of the parsed family's
total_length, then writing the family yields exactly `s`.  (The
counterexample shows the claim fails without the length-field
condition.) -/
theorem family_read_write_roundtrip (s : List Nat) (fam : IconFamily)
    (h : IconFamily.read s = some (fam, []))
    (hb : ∀ x ∈ s, x < 256)
    (hd : (s.drop 4).take 4 = writeU32 fam.total_length) :
    IconFamily.write fam = s := by
  match s with
  | [] => simp [IconFamily.read] at h
  | [m0] => simp [IconFamily.read] at h
  | [m0, m1] => simp [IconFamily.read] at h
  | [m0, m1, m2] => simp [IconFamily.read] at h
  | m0 :: m1 :: m2 :: m3 :: s1 =>
    simp only [IconFamily.read] at h
    by_cases hm : [m0, m1, m2, m3] ≠ icnsMagic
    · rw [if_pos hm] at h
      simp at h
    · rw [if_neg hm] at h
      match s1 with
      | [] => simp [readU32] at h
      | [l0] => simp [readU32] at h
      | [l0, l1] => simp [readU32] at h
      | [l0, l1, l2] => simp [readU32] at h
      | l0 :: l1 :: l2 :: l3 :: s2 =>
        simp only [readU32] at h
        cases hloop : familyReadLoop (s2.length + 1) 8
            (((l0 * 256 + l1) * 256 + l2) * 256 + l3) s2 with
        | none => rw [hloop] at h; simp at h
        | some res =>
          obtain ⟨els, rest⟩ := res
          rw [hloop] at h
          obtain ⟨hf, hr⟩ := by simpa using h
          subst hf
          subst hr
          have hmagic : m0 = 105 ∧ m1 = 99 ∧ m2 = 110 ∧ m3 = 115 := by
            have := not_not.mp hm
            simpa [icnsMagic] using this
          obtain ⟨e0, e1, e2, e3⟩ := hmagic
          subst e0 e1 e2 e3
          have hbody : s2 = (els.map IconElement.write).flatten :=
            familyReadLoop_write _ _ _ _ _ hloop
              (fun x hx => hb x (by simp [hx]))
          have hdl : [l0, l1, l2, l3] = writeU32 (IconFamily.mk els).total_length := by
            simpa using hd
          simp only [IconFamily.write, icnsMagic, ← hdl]
          rw [← hbody]
          rfl

/-- Claim C5 witness: the amended round trip at the concrete well-formed
empty family file "icns" 00 00 00 08. -/
theorem family_read_write_roundtrip_witness :
    IconFamily.write ⟨[]⟩ = [105, 99, 110, 115, 0, 0, 0, 8] :=
  family_read_write_roundtrip [105, 99, 110, 115, 0, 0, 0, 8] ⟨[]⟩ rfl
    (by decide) (by decide)

end Icns
